import Mathlib

/-!
# Worker pool of `main.go`: dispatcher, workers and job hand-off

A shallow embedding of `src/main.go`.  Goroutines are program counters in an
explicit state, channel operations are the transitions of a step function
`step : Action → State → Option State`, and an execution is a list of actions
run from the state left by `NewDispatcher(W)` followed by one `Run()`.  The
result `none` of a step means that no state follows: either the operation is
not enabled (the goroutine stays blocked) or it panics and the process ends;
`panics` tells the two apart.

Library behaviour the source relies on and that is fixed here:
* a channel is a FIFO buffer of bounded capacity plus a FIFO queue of blocked
  senders (as in the Go runtime); with capacity 0 a send completes only at the
  matching receive;
* `select` with several ready cases may take any of them;
* `sync.WaitGroup` is an integer counter; `Done` subtracts one and panics
  ("sync: negative WaitGroup counter") when the counter is already 0;
* `make(chan T, size)` panics ("makechan: size out of range") when the size is
  negative or the buffer would exceed what the runtime can allocate; the
  bounds are those of a 64-bit platform;
* `os.ReadFile` returns either an error or the content of the file; which of
  the two is an input of the transition that runs the body of `read`.

Granularity: `Run` and `Stop` are taken as one step each (the goroutines they
start only run afterwards; nothing they do depends on what those goroutines
do), the receive of `dispatch` and the `go` statement after it are one step,
and a send and a receive that meet on an unbuffered channel are one step.
The caller is open: any goroutine may send on `JobQueue` at any time and
`Stop` may be called at any time; `main` is one such caller.  `JobQueue` is
never closed in the source, so the state has no closed flag.
-/

namespace WorkerQueue

/-! ## Data model -/

/-- Job represents the data we are going to work on (main.go:11-14).
`wg` is the address of the `sync.WaitGroup` the job points to. -/
structure Job where
  filename : String
  wg : Nat
deriving DecidableEq

/-- A submitted job together with its submission index (history variable that
tells apart jobs with equal fields, such as the ones `main` creates). -/
abbrev Ticket := Nat × Job

/-- Capacity of `JobQueue` (main.go:17): `make(chan Job)` has no size argument. -/
def JobQueueCap : Nat := 0

/-- Worker represents the worker that executes the job (main.go:20-24).
A channel value is the address (a natural number) of the channel object that
`make` returned. -/
structure Worker where
  WorkerPool : Nat
  JobChannel : Nat
  quit : Nat
deriving DecidableEq

/-- Dispatcher (main.go:63-67).  `maxWorkers` is an `int`; `NewDispatcher`
only makes dispatchers whose `maxWorkers` passed the size check of `make`,
far inside the range of `int`. -/
structure Dispatcher where
  workerPool : Nat
  maxWorkers : Int
  workers : List Worker
deriving DecidableEq

/-- Channels allocated so far: the next free address, and for every address
the capacity given to `make` and the handles currently buffered
(only `chan chan Job` channels ever buffer anything). -/
structure Heap where
  next : Nat
  cap : Nat → Nat
  buf : Nat → List Nat

/-- Pointwise update of a table indexed by addresses. -/
def upd {β : Type} (f : Nat → β) (a : Nat) (v : β) : Nat → β :=
  fun b => if b = a then v else f b

/-- The call `make(chan T, size)`: a fresh, empty channel. -/
def Heap.make (h : Heap) (size : Nat) : Nat × Heap :=
  (h.next, { next := h.next + 1, cap := upd h.cap h.next size, buf := upd h.buf h.next [] })

/-- Program counter of the goroutine started by `Worker.Start` (main.go:36-51). -/
inductive WPc where
  /-- at line 39, about to send its handle on `w.WorkerPool` -/
  | announcing
  /-- at the `select` of line 41 -/
  | awaiting
  /-- line 44: the job was received, the body of `read` has not run yet -/
  | executing (t : Ticket)
  /-- inside `read`, body finished, the deferred `wg.Done()` still to run -/
  | finishing (t : Ticket)
  /-- returned at line 48 -/
  | stopped
deriving DecidableEq

/-- The goroutine of one `Worker.Start` call: the receiver it captured and where it is. -/
structure WorkerLoop where
  w : Worker
  pc : WPc
deriving DecidableEq

/-- The goroutine started at main.go:96 for one job. -/
inductive Handoff where
  /-- at line 99, blocked on `<-d.workerPool` -/
  | waiting (t : Ticket)
  /-- at line 102, holding `jobChannel`, blocked on `jobChannel <- job` -/
  | holding (t : Ticket) (jobChannel : Nat)
deriving DecidableEq

/-- Global state of the program. -/
structure State where
  heap : Heap
  /-- the dispatcher object `d` -/
  d : Dispatcher
  /-- goroutines started by `Worker.Start`, in start order -/
  gos : List WorkerLoop
  /-- number of goroutines running `d.dispatch()` -/
  dispatchers : Nat
  /-- values buffered in `JobQueue` -/
  JobQueue : List Ticket
  /-- senders blocked on `JobQueue <- work`, oldest first -/
  sendq : List Ticket
  /-- goroutines started at line 96 -/
  handoffs : List Handoff
  /-- goroutines started by `Worker.Stop`, each blocked on `w.quit <- true` -/
  stops : List Nat
  /-- counter of every `sync.WaitGroup` -/
  wgs : Nat → Int
  /-- what was printed -/
  out : List String
  /-- history: jobs in the order their send on `JobQueue` was issued -/
  submitted : List Ticket
  /-- history: jobs in the order `dispatch` received them -/
  pulled : List Ticket
  /-- history: jobs whose `read` has returned -/
  completed : List Ticket
  /-- history: the wait groups on which `Done` was called, in call order -/
  signals : List Nat

/-! ## The functions of `main.go` -/

/-- NewWorker (main.go:26-31). -/
def NewWorker (workerPool : Nat) (h : Heap) : Worker × Heap :=
  let (jc, h1) := h.make 0
  let (q, h2) := h1.make 0
  ({ WorkerPool := workerPool, JobChannel := jc, quit := q }, h2)

/-- Worker.Start (main.go:35-52): starts the goroutine of the run loop. -/
def Worker.Start (w : Worker) (s : State) : State :=
  { s with gos := s.gos ++ [{ w := w, pc := WPc.announcing }] }

/-- Worker.Stop (main.go:55-59): starts a goroutine that sends on `w.quit`. -/
def Worker.Stop (w : Worker) (s : State) : State :=
  { s with stops := s.stops ++ [w.quit] }

/-- The largest allocation of the Go runtime on a 64-bit platform
(`maxAlloc`, that is `1 << 48`). -/
def maxAlloc : Int := 281474976710656

/-- The size of the header of a channel object (`hchanSize`) on a 64-bit
platform: 96 bytes (releases of Go whose header has one more field have 104,
which moves the largest accepted size by one element). -/
def hchanSize : Int := 96

/-- The size of one element of a `chan chan Job`: a channel value is a pointer. -/
def chanElemSize : Int := 8

/-- The size check of `make(chan T, size)` (`makechan` of the runtime):
the call panics when the size is negative or the buffer of `size` elements
does not fit under `maxAlloc` next to the header.  Every `int` beyond that
bound, `MaxInt64` included, is refused. -/
def makechanPanics (elemSize size : Int) : Bool :=
  decide (size < 0 ∨ maxAlloc - hchanSize < elemSize * size)

/-- NewDispatcher (main.go:69-72). `none`: `make(chan chan Job, maxWorkers)` panics. -/
def NewDispatcher (maxWorkers : Int) (h : Heap) : Option (Dispatcher × Heap) :=
  if makechanPanics chanElemSize maxWorkers then none
  else
    let (pool, h1) := h.make maxWorkers.toNat
    some ({ workerPool := pool, maxWorkers := maxWorkers, workers := [] }, h1)

/-- One iteration of the loop of `Run` (main.go:77-79). -/
def Dispatcher.runBody (s : State) : State :=
  let (worker, h) := NewWorker s.d.workerPool s.heap
  let s1 := worker.Start { s with heap := h }
  { s1 with d := { s1.d with workers := s1.d.workers ++ [worker] } }

/-- The loop of `Run` (main.go:76-80), `n` iterations left. -/
def Dispatcher.runLoop : Nat → State → State
  | 0, s => s
  | n + 1, s => Dispatcher.runLoop n (Dispatcher.runBody s)

/-- Dispatcher.Run (main.go:75-83). -/
def Dispatcher.Run (s : State) : State :=
  let s1 := Dispatcher.runLoop s.d.maxWorkers.toNat s
  { s1 with dispatchers := s1.dispatchers + 1 }

/-- Dispatcher.Stop (main.go:86-90). -/
def Dispatcher.Stop (s : State) : State :=
  s.d.workers.foldl (fun acc worker => worker.Stop acc) s

/-- What the body of `read` prints (main.go:110-119) for a given result of
`os.ReadFile(name)`: `.error err` or `.ok data`. -/
def readBody (r : Except String String) : List String :=
  match r with
  | .error err => ["Error reading file: " ++ err ++ "\n"]
  | .ok data =>
    if data ≠ "Hello, world" then
      ["File content mismatch: got " ++ data ++ " , want 'Hello, world'\n"]
    else []

/-- The call `wg.Done()` on the wait group at address `wg`, that is `Add(-1)`:
the counter drops by one; `none` when the new value would be negative, where
`Add` panics. -/
def wgDone (wg : Nat) (wgs : Nat → Int) : Option (Nat → Int) :=
  if wgs wg - 1 < 0 then none else some (upd wgs wg (wgs wg - 1))

/-- The function `read` (main.go:107-120) as a whole: the body, then the deferred
`wg.Done()`.  Acts on what was printed, the wait-group counters and the
history of `Done` calls; `none` when the deferred `wg.Done()` panics. -/
def read (r : Except String String) (wg : Nat)
    (e : List String × (Nat → Int) × List Nat) :
    Option (List String × (Nat → Int) × List Nat) :=
  (wgDone wg e.2.1).map (fun wgs => (e.1 ++ readBody r, wgs, e.2.2 ++ [wg]))

/-! ## Transitions -/

/-- One atomic step of one goroutine (or of two meeting on an unbuffered channel). -/
inductive Action where
  /-- some goroutine executes `JobQueue <- work` (main.go:142) -/
  | submit (j : Job)
  /-- `dispatch` receives from `JobQueue` (line 94) and starts the handoff (line 96) -/
  | pull
  /-- handoff `k` executes `jobChannel := <-d.workerPool` (line 99) -/
  | take (k : Nat)
  /-- the send of handoff `k` (line 102) meets the receive of worker `i` (line 42) -/
  | deliver (k i : Nat)
  /-- worker `i` executes `w.WorkerPool <- w.JobChannel` (line 39) -/
  | announce (i : Nat)
  /-- worker `i` runs the body of `read`, `os.ReadFile` returning `r` -/
  | runRead (i : Nat) (r : Except String String)
  /-- the deferred `wg.Done()` of worker `i` runs and `read` returns -/
  | done (i : Nat)
  /-- the `select` of worker `i` receives from `w.quit` (line 46) -/
  | recvQuit (i : Nat)
  /-- the owner of the dispatcher calls `d.Stop()` -/
  | stop

/-- A send `JobQueue <- work`: buffered if there is room, else the sender blocks. -/
def submit (j : Job) (s : State) : Option State :=
  let t : Ticket := (s.submitted.length, j)
  if s.JobQueue.length < JobQueueCap then
    some { s with JobQueue := s.JobQueue ++ [t], submitted := s.submitted ++ [t] }
  else
    some { s with sendq := s.sendq ++ [t], submitted := s.submitted ++ [t] }

/-- The state after `dispatch` received `t`: one more handoff goroutine. -/
def received (t : Ticket) (q sq : List Ticket) (s : State) : State :=
  { s with JobQueue := q, sendq := sq, handoffs := s.handoffs ++ [Handoff.waiting t],
           pulled := s.pulled ++ [t] }

/-- One iteration of `for job := range JobQueue` (main.go:94-104). -/
def pull (s : State) : Option State :=
  if s.dispatchers = 0 then none
  else
    match s.JobQueue, s.sendq with
    | t :: q, [] => some (received t q [] s)
    | t :: q, u :: sq => some (received t (q ++ [u]) sq s)
    | [], u :: sq => some (received u [] sq s)
    | [], [] => none

/-- Line 99: `jobChannel := <-d.workerPool`. -/
def take (k : Nat) (s : State) : Option State :=
  match s.handoffs[k]? with
  | some (Handoff.waiting t) =>
    match s.heap.buf s.d.workerPool with
    | ch :: rest =>
      some { s with heap := { s.heap with buf := upd s.heap.buf s.d.workerPool rest },
                    handoffs := s.handoffs.set k (Handoff.holding t ch) }
    | [] => none
  | _ => none

/-- Line 102 meets line 42: `jobChannel <- job` and `job := <-w.JobChannel`. -/
def deliver (k i : Nat) (s : State) : Option State :=
  match s.handoffs[k]?, s.gos[i]? with
  | some (Handoff.holding t ch), some { w := w, pc := WPc.awaiting } =>
    if w.JobChannel = ch then
      some { s with handoffs := s.handoffs.eraseIdx k,
                    gos := s.gos.set i { w := w, pc := WPc.executing t } }
    else none
  | _, _ => none

/-- Line 39: `w.WorkerPool <- w.JobChannel`; blocks while the buffer is full. -/
def announce (i : Nat) (s : State) : Option State :=
  match s.gos[i]? with
  | some { w := w, pc := WPc.announcing } =>
    if (s.heap.buf w.WorkerPool).length < s.heap.cap w.WorkerPool then
      some { s with heap := { s.heap with
                      buf := upd s.heap.buf w.WorkerPool (s.heap.buf w.WorkerPool ++ [w.JobChannel]) },
                    gos := s.gos.set i { w := w, pc := WPc.awaiting } }
    else none
  | _ => none

/-- Lines 110-119, called from line 44. -/
def runRead (i : Nat) (r : Except String String) (s : State) : Option State :=
  match s.gos[i]? with
  | some { w := w, pc := WPc.executing t } =>
    some { s with out := s.out ++ readBody r,
                  gos := s.gos.set i { w := w, pc := WPc.finishing t } }
  | _ => none

/-- Line 108 at the return of `read`; the worker loops back to line 39.
When `wg.Done()` panics the process ends and no state follows. -/
def done (i : Nat) (s : State) : Option State :=
  match s.gos[i]? with
  | some { w := w, pc := WPc.finishing t } =>
    match wgDone t.2.wg s.wgs with
    | some wgs =>
      some { s with wgs := wgs,
                    signals := s.signals ++ [t.2.wg],
                    completed := s.completed ++ [t],
                    gos := s.gos.set i { w := w, pc := WPc.announcing } }
    | none => none
  | _ => none

/-- Whether the action panics in the state, ending the process: the only
panic of the pool after `Run()` is the deferred `wg.Done()` of a worker on a
wait group whose counter is already 0. -/
def panics (a : Action) (s : State) : Bool :=
  match a with
  | .done i =>
    match s.gos[i]? with
    | some { w := _, pc := WPc.finishing t } => (wgDone t.2.wg s.wgs).isNone
    | _ => false
  | _ => false

/-- Lines 46-48 meet line 57: the worker receives the stop signal and returns. -/
def recvQuit (i : Nat) (s : State) : Option State :=
  match s.gos[i]? with
  | some { w := w, pc := WPc.awaiting } =>
    if w.quit ∈ s.stops then
      some { s with stops := s.stops.erase w.quit,
                    gos := s.gos.set i { w := w, pc := WPc.stopped } }
    else none
  | _ => none

/-- The step function. -/
def step (a : Action) (s : State) : Option State :=
  match a with
  | .submit j => submit j s
  | .pull => pull s
  | .take k => take k s
  | .deliver k i => deliver k i s
  | .announce i => announce i s
  | .runRead i r => runRead i r s
  | .done i => done i s
  | .recvQuit i => recvQuit i s
  | .stop => some (Dispatcher.Stop s)

/-- Runs a schedule; `none` if one of its actions is not enabled when its turn comes. -/
def run : List Action → State → Option State
  | [], s => some s
  | a :: as, s => (step a s).bind (run as)

/-- The heap before `NewDispatcher`: no channel made yet (`JobQueue` is kept
apart, in the state). -/
def emptyHeap : Heap := { next := 0, cap := fun _ => 0, buf := fun _ => [] }

/-- The program right after `NewDispatcher` returned `d`: no goroutine but the
caller, nothing submitted, wait-group counters as given (`wg.Add` of
main.go:131). -/
def created (d : Dispatcher) (h : Heap) (wgs : Nat → Int) : State :=
  { heap := h, d := d,
    gos := [], dispatchers := 0, JobQueue := [], sendq := [], handoffs := [], stops := [],
    wgs := wgs, out := [], submitted := [], pulled := [], completed := [], signals := [] }

/-- The state after `dispatcher := NewDispatcher(n); dispatcher.Run()` (main.go:133-134). -/
def started (n : Int) (wgs : Nat → Int) : Option State :=
  (NewDispatcher n emptyHeap).map (fun p => Dispatcher.Run (created p.1 p.2 wgs))

/-- The state reached from `NewDispatcher(W)` and one `Run()` by the schedule `tr`. -/
def exec (W : Nat) (wgs : Nat → Int) (tr : List Action) : Option State :=
  (started W wgs).bind (run tr)

/-! ## Observables -/

/-- The handles buffered in the idle registry `d.workerPool`. -/
def State.registry (s : State) : List Nat := s.heap.buf s.d.workerPool

/-- The job a worker is executing (between the receive of line 42 and the return of `read`). -/
def WPc.job? : WPc → Option Ticket
  | .executing t => some t
  | .finishing t => some t
  | _ => none

/-- A worker that is neither about to announce nor executing: it waits at the
`select` or has returned. -/
def WPc.idle : WPc → Bool
  | .awaiting => true
  | .stopped => true
  | _ => false

/-- The job a handoff goroutine carries. -/
def Handoff.ticket : Handoff → Ticket
  | .waiting t => t
  | .holding t _ => t

/-- The handle a handoff goroutine took from the registry and has not delivered to yet. -/
def Handoff.chan? : Handoff → Option Nat
  | .waiting _ => none
  | .holding _ ch => some ch

/-- Jobs waiting in the queue: buffered in `JobQueue` or in a blocked send. -/
def State.waiting (s : State) : List Ticket := s.JobQueue ++ s.sendq

/-- Jobs held by a handoff goroutine. -/
def State.inHandoff (s : State) : List Ticket := s.handoffs.map Handoff.ticket

/-- Handles held by handoff goroutines. -/
def State.held (s : State) : List Nat := s.handoffs.filterMap Handoff.chan?

/-- Jobs being executed by a worker. -/
def State.executing (s : State) : List Ticket := s.gos.filterMap (fun g => g.pc.job?)

/-- Number of workers at line 39, about to announce themselves. -/
def State.announcers (s : State) : Nat := s.gos.countP (fun g => g.pc = WPc.announcing)

/-- Every place a submitted job can be in. -/
def State.located (s : State) : List Ticket :=
  s.waiting ++ s.inHandoff ++ s.executing ++ s.completed

/-- The worker goroutine an action belongs to, if it is a step of a worker. -/
def Action.worker? : Action → Option Nat
  | .deliver _ i => some i
  | .announce i => some i
  | .runRead i _ => some i
  | .done i => some i
  | .recvQuit i => some i
  | _ => none

/-- The workers `n` consecutive calls of `NewWorker(pool)` return when the next
free address is `base`: each call makes two channels. -/
def freshWorkers (pool base : Nat) : Nat → List Worker
  | 0 => []
  | n + 1 => { WorkerPool := pool, JobChannel := base, quit := base + 1 }
      :: freshWorkers pool (base + 2) n

/-- The channels a worker owns. -/
def Worker.chans (w : Worker) : List Nat := [w.JobChannel, w.quit]

/-! ## Invariants -/

/-- What `NewDispatcher(W)` and `Run()` set up and no transition changes. -/
structure Static (W : Nat) (s : State) : Prop where
  pool : ∀ w ∈ s.gos.map (fun g => g.w), w.WorkerPool = s.d.workerPool
  cap : s.heap.cap s.d.workerPool = W
  maxW : s.d.maxWorkers = W
  tracked : s.gos.map (fun g => g.w) = s.d.workers
  len : (s.gos.map (fun g => g.w)).length = W
  jcs : ((s.gos.map (fun g => g.w)).map (fun w => w.JobChannel)).Nodup
  quits : ((s.gos.map (fun g => g.w)).map (fun w => w.quit)).Nodup
  disp : s.dispatchers = 1

/-- Every worker is about to announce, executing, or has its handle in the
registry or in the hands of a handoff. -/
def Balanced (W : Nat) (s : State) : Prop :=
  s.registry.length + s.held.length + s.announcers + s.executing.length = W

/-- Per handle: its occurrences in the registry and in handoffs, plus the
non-idle workers owning it, are as many as the workers owning it. -/
def Handles (s : State) : Prop :=
  ∀ ch : Nat,
    s.registry.count ch + s.held.count ch
      + s.gos.countP (fun g => decide (g.w.JobChannel = ch) && !g.pc.idle)
      = ((s.gos.map (fun g => g.w)).map (fun w => w.JobChannel)).count ch

/-- The queue keeps the order of submission. -/
structure Queue (s : State) : Prop where
  order : s.submitted = s.pulled ++ s.waiting
  room : s.JobQueue.length ≤ JobQueueCap
  ids : s.submitted.map Prod.fst = List.range s.submitted.length

/-- The places jobs are in hold exactly the submitted jobs, each once. -/
def Jobs (s : State) : Prop :=
  s.located.Perm s.submitted

/-- Completion signals match completed jobs, counters match signals. -/
structure Signals (wgs : Nat → Int) (s : State) : Prop where
  fired : s.signals = s.completed.map (fun t => t.2.wg)
  counter : ∀ a : Nat, s.wgs a = wgs a - s.signals.count a

/-- All six invariants of a reachable state. -/
def Inv (W : Nat) (wgs : Nat → Int) (s : State) : Prop :=
  Static W s ∧ Balanced W s ∧ Handles s ∧ Queue s ∧ Jobs s ∧ Signals wgs s

/-! ## Auxiliary definitions for the initial state and for sample schedules -/

/-- The dispatcher `NewDispatcher(n)` returns on the empty heap. -/
def firstDispatcher (n : Int) : Dispatcher := { workerPool := 0, maxWorkers := n, workers := [] }

/-- The heap `NewDispatcher(n)` leaves when it starts from the empty heap. -/
def firstHeap (n : Int) : Heap :=
  { next := 1, cap := upd (fun _ => 0) 0 n.toNat, buf := upd (fun _ => []) 0 [] }

/-- A job as `main` makes them: the file of main.go:122 and wait group 0. -/
def work : Job := { filename := "./text.txt", wg := 0 }

/-- A complete run of two jobs on a pool of two workers: both workers announce,
both jobs are submitted, pulled, handed over, executed (the second read
fails) and signalled. -/
def twoJobs : List Action :=
  [.announce 0, .submit work, .pull, .announce 1, .submit work, .pull, .take 1, .take 0,
   .deliver 1 0, .deliver 0 1, .runRead 1 (.ok "Hello, world"), .runRead 0 (.error "no such file"),
   .done 0, .done 1, .announce 1]

/-- A run of one worker in which `Stop` is called while a handoff holds the
worker's handle. -/
def stopRace : List Action :=
  [.submit work, .pull, .announce 0, .take 0, .stop]

/-- One job on a pool of one worker, up to the point where the worker has
received it. -/
def oneJob : List Action :=
  [.submit work, .pull, .announce 0, .take 0, .deliver 0 0]

/-- Two jobs on a pool of one worker: the worker has received the first, the
handoff of the second waits for a handle, the registry is empty. -/
def secondWaits : List Action :=
  [.announce 0, .submit work, .pull, .submit work, .pull, .take 0, .deliver 0 0]

/-- The run `secondWaits` continued: the first read fails, the worker signals,
announces again, is handed the second job and completes it. -/
def failThenNext : List Action :=
  secondWaits ++ [.runRead 0 (.error "no such file"), .done 0, .announce 0, .take 0,
    .deliver 0 0, .runRead 0 (.ok "Hello, world"), .done 0]

/-- The run `stopRace` followed by the delivery of the stop signal: the worker
returns while a handoff still holds its handle. -/
def stopDelivered : List Action :=
  stopRace ++ [.recvQuit 0]

/-! ## Lists: counting under `set` and `eraseIdx` -/

theorem beq_dec {α : Type} (d : DecidableEq α) (a b : α) :
    @BEq.beq α (@instBEqOfDecidableEq α d) a b = @decide (a = b) (d a b) := rfl

theorem sum_map_set {α : Type} (f : α → Nat) :
    ∀ (l : List α) (i : Nat) (x y : α), l[i]? = some x →
      ((l.set i y).map f).sum + f x = (l.map f).sum + f y
  | [], i, x, y, h => by simp at h
  | a :: l, 0, x, y, h => by
    simp at h; subst h; simp; omega
  | a :: l, i + 1, x, y, h => by
    simp at h
    have := sum_map_set f l i x y h
    simp only [List.set_cons_succ, List.map_cons, List.sum_cons]; omega

theorem sum_map_eraseIdx {α : Type} (f : α → Nat) :
    ∀ (l : List α) (i : Nat) (x : α), l[i]? = some x →
      ((l.eraseIdx i).map f).sum + f x = (l.map f).sum
  | [], i, x, h => by simp at h
  | a :: l, 0, x, h => by
    simp at h; subst h; simp; omega
  | a :: l, i + 1, x, h => by
    simp at h
    have := sum_map_eraseIdx f l i x h
    simp; omega

theorem map_set_same {α β : Type} (f : α → β) :
    ∀ (l : List α) (i : Nat) (x y : α), l[i]? = some x → f y = f x →
      (l.set i y).map f = l.map f
  | [], i, x, y, h, _ => by simp at h
  | a :: l, 0, x, y, h, hf => by
    simp at h; subst h; simp [hf]
  | a :: l, i + 1, x, y, h, hf => by
    simp at h
    simp only [List.set_cons_succ, List.map_cons, map_set_same f l i x y h hf]

theorem count_eq_sum {α : Type} [DecidableEq α] (t : α) :
    ∀ l : List α, l.count t = (l.map (fun x => if x = t then 1 else 0)).sum
  | [] => rfl
  | a :: l => by
    simp [List.count_cons, count_eq_sum t l]
    split <;> omega

theorem count_filterMap_eq_sum {α β : Type} [DecidableEq β] (f : α → Option β) (t : β) :
    ∀ l : List α, (l.filterMap f).count t = (l.map (fun x => if f x = some t then 1 else 0)).sum
  | [] => rfl
  | a :: l => by
    cases hfa : f a with
    | none => simp [List.filterMap_cons, hfa, count_filterMap_eq_sum f t l]
    | some b =>
      simp [List.filterMap_cons, hfa, List.count_cons, count_filterMap_eq_sum f t l]
      split <;> omega

theorem length_filterMap_eq_sum {α β : Type} (f : α → Option β) :
    ∀ l : List α, (l.filterMap f).length = (l.map (fun x => if (f x).isSome then 1 else 0)).sum
  | [] => rfl
  | a :: l => by
    cases hfa : f a with
    | none => simp [List.filterMap_cons, hfa, length_filterMap_eq_sum f l]
    | some b =>
      simp [List.filterMap_cons, hfa, length_filterMap_eq_sum f l]
      omega

theorem countP_eq_sum {α : Type} (p : α → Bool) :
    ∀ l : List α, l.countP p = (l.map (fun x => if p x then 1 else 0)).sum
  | [] => rfl
  | a :: l => by
    simp [List.countP_cons, countP_eq_sum p l]
    split <;> omega

theorem countP_set {α : Type} (p : α → Bool) (l : List α) (i : Nat) (x y : α)
    (h : l[i]? = some x) :
    (l.set i y).countP p + (if p x then 1 else 0) = l.countP p + (if p y then 1 else 0) := by
  rw [countP_eq_sum, countP_eq_sum]
  exact sum_map_set (fun x => if p x then 1 else 0) l i x y h

theorem count_filterMap_set {α β : Type} [DecidableEq β] (f : α → Option β) (t : β)
    (l : List α) (i : Nat) (x y : α) (h : l[i]? = some x) :
    ((l.set i y).filterMap f).count t + (if f x = some t then 1 else 0)
      = (l.filterMap f).count t + (if f y = some t then 1 else 0) := by
  rw [count_filterMap_eq_sum, count_filterMap_eq_sum]
  exact sum_map_set (fun x => if f x = some t then 1 else 0) l i x y h

theorem length_filterMap_set {α β : Type} (f : α → Option β)
    (l : List α) (i : Nat) (x y : α) (h : l[i]? = some x) :
    ((l.set i y).filterMap f).length + (if (f x).isSome then 1 else 0)
      = (l.filterMap f).length + (if (f y).isSome then 1 else 0) := by
  rw [length_filterMap_eq_sum, length_filterMap_eq_sum]
  exact sum_map_set (fun x => if (f x).isSome then 1 else 0) l i x y h

theorem count_filterMap_eraseIdx {α β : Type} [DecidableEq β] (f : α → Option β) (t : β)
    (l : List α) (i : Nat) (x : α) (h : l[i]? = some x) :
    ((l.eraseIdx i).filterMap f).count t + (if f x = some t then 1 else 0)
      = (l.filterMap f).count t := by
  rw [count_filterMap_eq_sum, count_filterMap_eq_sum]
  exact sum_map_eraseIdx (fun x => if f x = some t then 1 else 0) l i x h

theorem length_filterMap_eraseIdx {α β : Type} (f : α → Option β)
    (l : List α) (i : Nat) (x : α) (h : l[i]? = some x) :
    ((l.eraseIdx i).filterMap f).length + (if (f x).isSome then 1 else 0)
      = (l.filterMap f).length := by
  rw [length_filterMap_eq_sum, length_filterMap_eq_sum]
  exact sum_map_eraseIdx (fun x => if (f x).isSome then 1 else 0) l i x h

theorem count_map_set {α β : Type} [DecidableEq β] (f : α → β) (t : β)
    (l : List α) (i : Nat) (x y : α) (h : l[i]? = some x) :
    ((l.set i y).map f).count t + (if f x = t then 1 else 0)
      = (l.map f).count t + (if f y = t then 1 else 0) := by
  rw [count_eq_sum, count_eq_sum, List.map_map, List.map_map]
  exact sum_map_set _ l i x y h

theorem count_map_eraseIdx {α β : Type} [DecidableEq β] (f : α → β) (t : β)
    (l : List α) (i : Nat) (x : α) (h : l[i]? = some x) :
    ((l.eraseIdx i).map f).count t + (if f x = t then 1 else 0) = (l.map f).count t := by
  rw [count_eq_sum, count_eq_sum, List.map_map, List.map_map]
  exact sum_map_eraseIdx _ l i x h

/-! ### Evaluation of the observables on constructors -/

theorem job?_announcing : WPc.announcing.job? = none := rfl
theorem job?_awaiting : WPc.awaiting.job? = none := rfl
theorem job?_executing (t : Ticket) : (WPc.executing t).job? = some t := rfl
theorem job?_finishing (t : Ticket) : (WPc.finishing t).job? = some t := rfl
theorem job?_stopped : WPc.stopped.job? = none := rfl
theorem idle_announcing : WPc.announcing.idle = false := rfl
theorem idle_awaiting : WPc.awaiting.idle = true := rfl
theorem idle_executing (t : Ticket) : (WPc.executing t).idle = false := rfl
theorem idle_finishing (t : Ticket) : (WPc.finishing t).idle = false := rfl
theorem idle_stopped : WPc.stopped.idle = true := rfl
theorem ticket_waiting (t : Ticket) : (Handoff.waiting t).ticket = t := rfl
theorem ticket_holding (t : Ticket) (c : Nat) : (Handoff.holding t c).ticket = t := rfl
theorem chan?_waiting (t : Ticket) : (Handoff.waiting t).chan? = none := rfl
theorem chan?_holding (t : Ticket) (c : Nat) : (Handoff.holding t c).chan? = some c := rfl

/-! ### What each transition does -/

theorem upd_same {β : Type} (f : Nat → β) (a : Nat) (v : β) : upd f a v a = v := by
  simp [upd]

theorem upd_other {β : Type} (f : Nat → β) (a b : Nat) (v : β) (h : b ≠ a) :
    upd f a v b = f b := by
  simp [upd, h]

theorem submit_eq (j : Job) (s : State) :
    submit j s = some { s with sendq := s.sendq ++ [(s.submitted.length, j)],
                               submitted := s.submitted ++ [(s.submitted.length, j)] } := by
  simp [submit, JobQueueCap]

theorem pull_inv {s s' : State} (h : pull s = some s') :
    ∃ t q sq, s.waiting = t :: (q ++ sq) ∧ q.length ≤ s.JobQueue.length ∧ s.dispatchers ≠ 0
      ∧ s' = received t q sq s := by
  unfold pull at h
  split at h
  · simp at h
  · rename_i hd
    split at h
    · rename_i t q hq hs
      simp at h; subst h
      exact ⟨t, q, [], by simp [State.waiting, hq, hs], by simp [hq], hd, rfl⟩
    · rename_i t q u sq hq hs
      simp at h; subst h
      exact ⟨t, q ++ [u], sq, by simp [State.waiting, hq, hs], by simp [hq], hd, rfl⟩
    · rename_i u sq hq hs
      simp at h; subst h
      exact ⟨u, [], sq, by simp [State.waiting, hq, hs], by simp, hd, rfl⟩
    · simp at h

theorem take_inv {k : Nat} {s s' : State} (h : take k s = some s') :
    ∃ t ch rest, s.handoffs[k]? = some (Handoff.waiting t) ∧ s.registry = ch :: rest
      ∧ s' = { s with heap := { s.heap with buf := upd s.heap.buf s.d.workerPool rest },
                      handoffs := s.handoffs.set k (Handoff.holding t ch) } := by
  unfold take at h
  split at h
  · rename_i t hk
    split at h
    · rename_i ch rest hb
      simp at h; subst h
      exact ⟨t, ch, rest, hk, hb, rfl⟩
    · simp at h
  · simp at h

theorem deliver_inv {k i : Nat} {s s' : State} (h : deliver k i s = some s') :
    ∃ t w, s.handoffs[k]? = some (Handoff.holding t w.JobChannel)
      ∧ s.gos[i]? = some { w := w, pc := WPc.awaiting }
      ∧ s' = { s with handoffs := s.handoffs.eraseIdx k,
                      gos := s.gos.set i { w := w, pc := WPc.executing t } } := by
  unfold deliver at h
  split at h
  · rename_i t ch w hk hi
    split at h
    · rename_i hc
      simp at h; subst h; subst hc
      exact ⟨t, w, hk, hi, rfl⟩
    · simp at h
  · simp at h

theorem announce_inv {i : Nat} {s s' : State} (h : announce i s = some s') :
    ∃ w, s.gos[i]? = some { w := w, pc := WPc.announcing }
      ∧ (s.heap.buf w.WorkerPool).length < s.heap.cap w.WorkerPool
      ∧ s' = { s with heap := { s.heap with
                        buf := upd s.heap.buf w.WorkerPool (s.heap.buf w.WorkerPool ++ [w.JobChannel]) },
                      gos := s.gos.set i { w := w, pc := WPc.awaiting } } := by
  unfold announce at h
  split at h
  · rename_i w hi
    split at h
    · rename_i hc
      simp at h; subst h
      exact ⟨w, hi, hc, rfl⟩
    · simp at h
  · simp at h

theorem runRead_inv {i : Nat} {r : Except String String} {s s' : State}
    (h : runRead i r s = some s') :
    ∃ w t, s.gos[i]? = some { w := w, pc := WPc.executing t }
      ∧ s' = { s with out := s.out ++ readBody r,
                      gos := s.gos.set i { w := w, pc := WPc.finishing t } } := by
  unfold runRead at h
  split at h
  · rename_i w t hi
    simp at h; subst h
    exact ⟨w, t, hi, rfl⟩
  · simp at h

theorem wgDone_some {wg : Nat} {wgs : Nat → Int} (h : 0 < wgs wg) :
    wgDone wg wgs = some (upd wgs wg (wgs wg - 1)) := by
  have hn : ¬ wgs wg - 1 < 0 := by omega
  simp only [wgDone, hn, if_false]

theorem wgDone_none {wg : Nat} {wgs : Nat → Int} (h : wgs wg ≤ 0) :
    wgDone wg wgs = none := by
  have hn : wgs wg - 1 < 0 := by omega
  simp only [wgDone, hn, if_true]

theorem wgDone_inv {wg : Nat} {wgs wgs' : Nat → Int} (h : wgDone wg wgs = some wgs') :
    0 < wgs wg ∧ wgs' = upd wgs wg (wgs wg - 1) := by
  unfold wgDone at h
  split at h
  · simp at h
  · rename_i hn
    simp only [Option.some.injEq] at h
    exact ⟨by omega, h.symm⟩

theorem done_inv {i : Nat} {s s' : State} (h : done i s = some s') :
    ∃ w t, s.gos[i]? = some { w := w, pc := WPc.finishing t }
      ∧ 0 < s.wgs t.2.wg
      ∧ s' = { s with wgs := upd s.wgs t.2.wg (s.wgs t.2.wg - 1),
                      signals := s.signals ++ [t.2.wg],
                      completed := s.completed ++ [t],
                      gos := s.gos.set i { w := w, pc := WPc.announcing } } := by
  unfold done at h
  split at h
  · rename_i w t hi
    split at h
    · rename_i wgs hw
      obtain ⟨hpos, rfl⟩ := wgDone_inv hw
      simp at h; subst h
      exact ⟨w, t, hi, hpos, rfl⟩
    · simp at h
  · simp at h

theorem recvQuit_inv {i : Nat} {s s' : State} (h : recvQuit i s = some s') :
    ∃ w, s.gos[i]? = some { w := w, pc := WPc.awaiting } ∧ w.quit ∈ s.stops
      ∧ s' = { s with stops := s.stops.erase w.quit,
                      gos := s.gos.set i { w := w, pc := WPc.stopped } } := by
  unfold recvQuit at h
  split at h
  · rename_i w hi
    split at h
    · rename_i hc
      simp at h; subst h
      exact ⟨w, hi, hc, rfl⟩
    · simp at h
  · simp at h

theorem Stop_fold (ws : List Worker) (s : State) :
    ws.foldl (fun acc worker => worker.Stop acc) s
      = { s with stops := s.stops ++ ws.map (fun w => w.quit) } := by
  induction ws generalizing s with
  | nil => simp
  | cons w ws ih =>
    rw [List.foldl_cons, ih]
    simp [Worker.Stop]

theorem Stop_eq (s : State) :
    Dispatcher.Stop s = { s with stops := s.stops ++ s.d.workers.map (fun w => w.quit) } :=
  Stop_fold s.d.workers s

/-! ## Preservation of the invariants -/

/-- No transition changes the dispatcher object, the capacities, the set of
worker goroutines or the dispatch loop. -/
theorem step_frame {a : Action} {s s' : State} (h : step a s = some s') :
    s'.d = s.d ∧ s'.heap.cap = s.heap.cap ∧ s'.heap.next = s.heap.next
      ∧ s'.gos.map (fun g => g.w) = s.gos.map (fun g => g.w)
      ∧ s'.dispatchers = s.dispatchers := by
  cases a with
  | submit j =>
    simp only [step, submit_eq, Option.some.injEq] at h; subst h; simp
  | pull =>
    obtain ⟨t, q, sq, -, -, -, rfl⟩ := pull_inv h; simp [received]
  | take k =>
    obtain ⟨t, ch, rest, -, -, rfl⟩ := take_inv h; simp
  | deliver k i =>
    obtain ⟨t, w, -, hi, rfl⟩ := deliver_inv h
    simp [map_set_same (fun g : WorkerLoop => g.w) _ _ _ _ hi]
  | announce i =>
    obtain ⟨w, hi, -, rfl⟩ := announce_inv h
    simp [map_set_same (fun g : WorkerLoop => g.w) _ _ _ _ hi]
  | runRead i r =>
    obtain ⟨w, t, hi, rfl⟩ := runRead_inv h
    simp [map_set_same (fun g : WorkerLoop => g.w) _ _ _ _ hi]
  | done i =>
    obtain ⟨w, t, hi, -, rfl⟩ := done_inv h
    simp [map_set_same (fun g : WorkerLoop => g.w) _ _ _ _ hi]
  | recvQuit i =>
    obtain ⟨w, hi, -, rfl⟩ := recvQuit_inv h
    simp [map_set_same (fun g : WorkerLoop => g.w) _ _ _ _ hi]
  | stop =>
    simp only [step, Stop_eq, Option.some.injEq] at h; subst h; simp

theorem Static_step {W : Nat} {a : Action} {s s' : State} (h : step a s = some s')
    (hs : Static W s) : Static W s' := by
  obtain ⟨hd, hc, -, hg, hp⟩ := step_frame h
  constructor
  · rw [hg, hd]; exact hs.pool
  · rw [hd, hc]; exact hs.cap
  · rw [hd]; exact hs.maxW
  · rw [hg, hd]; exact hs.tracked
  · rw [hg]; exact hs.len
  · rw [hg]; exact hs.jcs
  · rw [hg]; exact hs.quits
  · rw [hp]; exact hs.disp

theorem mem_of_getElem? {α : Type} {l : List α} {i : Nat} {x : α} (h : l[i]? = some x) :
    x ∈ l := by
  obtain ⟨hi, rfl⟩ := List.getElem?_eq_some.mp h
  exact List.getElem_mem hi

theorem Balanced_step {W : Nat} {a : Action} {s s' : State} (h : step a s = some s')
    (hs : Static W s) (hb : Balanced W s) : Balanced W s' := by
  unfold Balanced at hb ⊢
  cases a with
  | submit j =>
    simp only [step, submit_eq, Option.some.injEq] at h; subst h; exact hb
  | pull =>
    obtain ⟨t, q, sq, -, -, -, rfl⟩ := pull_inv h
    simpa [received, State.registry, State.held, State.announcers, State.executing,
      chan?_waiting, chan?_holding] using hb
  | take k =>
    obtain ⟨t, ch, rest, hk, hr, rfl⟩ := take_inv h
    have h1 := length_filterMap_set Handoff.chan? s.handoffs k _ (Handoff.holding t ch) hk
    simp only [State.registry] at hr
    simp [State.registry, State.held, State.announcers, State.executing, chan?_waiting, chan?_holding,
      upd_same, hr] at hb h1 ⊢
    omega
  | deliver k i =>
    obtain ⟨t, w, hk, hi, rfl⟩ := deliver_inv h
    have h1 := length_filterMap_eraseIdx Handoff.chan? s.handoffs k _ hk
    have h2 := length_filterMap_set (fun g : WorkerLoop => g.pc.job?) s.gos i _
      { w := w, pc := WPc.executing t } hi
    have h3 := countP_set (fun g : WorkerLoop => decide (g.pc = WPc.announcing)) s.gos i _
      { w := w, pc := WPc.executing t } hi
    simp [State.registry, State.held, State.announcers, State.executing, chan?_waiting, chan?_holding,
      job?_announcing, job?_awaiting, job?_executing, job?_finishing, job?_stopped] at hb h1 h2 h3 ⊢
    omega
  | announce i =>
    obtain ⟨w, hi, -, rfl⟩ := announce_inv h
    have hw : w.WorkerPool = s.d.workerPool :=
      hs.pool w (List.mem_map.mpr ⟨_, mem_of_getElem? hi, rfl⟩)
    have h2 := length_filterMap_set (fun g : WorkerLoop => g.pc.job?) s.gos i _
      { w := w, pc := WPc.awaiting } hi
    have h3 := countP_set (fun g : WorkerLoop => decide (g.pc = WPc.announcing)) s.gos i _
      { w := w, pc := WPc.awaiting } hi
    simp [State.registry, State.held, State.announcers, State.executing,
      job?_announcing, job?_awaiting, job?_executing, job?_finishing, job?_stopped, hw, upd_same] at hb h2 h3 ⊢
    omega
  | runRead i r =>
    obtain ⟨w, t, hi, rfl⟩ := runRead_inv h
    have h2 := length_filterMap_set (fun g : WorkerLoop => g.pc.job?) s.gos i _
      { w := w, pc := WPc.finishing t } hi
    have h3 := countP_set (fun g : WorkerLoop => decide (g.pc = WPc.announcing)) s.gos i _
      { w := w, pc := WPc.finishing t } hi
    simp [State.registry, State.held, State.announcers, State.executing,
      job?_announcing, job?_awaiting, job?_executing, job?_finishing, job?_stopped] at hb h2 h3 ⊢
    omega
  | done i =>
    obtain ⟨w, t, hi, -, rfl⟩ := done_inv h
    have h2 := length_filterMap_set (fun g : WorkerLoop => g.pc.job?) s.gos i _
      { w := w, pc := WPc.announcing } hi
    have h3 := countP_set (fun g : WorkerLoop => decide (g.pc = WPc.announcing)) s.gos i _
      { w := w, pc := WPc.announcing } hi
    simp [State.registry, State.held, State.announcers, State.executing,
      job?_announcing, job?_awaiting, job?_executing, job?_finishing, job?_stopped] at hb h2 h3 ⊢
    omega
  | recvQuit i =>
    obtain ⟨w, hi, -, rfl⟩ := recvQuit_inv h
    have h2 := length_filterMap_set (fun g : WorkerLoop => g.pc.job?) s.gos i _
      { w := w, pc := WPc.stopped } hi
    have h3 := countP_set (fun g : WorkerLoop => decide (g.pc = WPc.announcing)) s.gos i _
      { w := w, pc := WPc.stopped } hi
    simp [State.registry, State.held, State.announcers, State.executing,
      job?_announcing, job?_awaiting, job?_executing, job?_finishing, job?_stopped] at hb h2 h3 ⊢
    omega
  | stop =>
    simp only [step, Stop_eq, Option.some.injEq] at h; subst h; exact hb

theorem Handles_step {W : Nat} {a : Action} {s s' : State} (h : step a s = some s')
    (hs : Static W s) (hh : Handles s) : Handles s' := by
  intro ch
  have hb := hh ch
  have hg := (step_frame h).2.2.2.1
  rw [hg]
  cases a with
  | submit j =>
    simp only [step, submit_eq, Option.some.injEq] at h; subst h; exact hb
  | pull =>
    obtain ⟨t, q, sq, -, -, -, rfl⟩ := pull_inv h
    simpa [received, State.registry, State.held, chan?_waiting, chan?_holding] using hb
  | take k =>
    obtain ⟨t, c, rest, hk, hr, rfl⟩ := take_inv h
    have h1 := count_filterMap_set Handoff.chan? ch s.handoffs k _ (Handoff.holding t c) hk
    simp only [State.registry] at hr
    simp [State.registry, State.held, chan?_waiting, chan?_holding, upd_same, hr, List.count_cons] at hb h1 ⊢
    omega
  | deliver k i =>
    obtain ⟨t, w, hk, hi, rfl⟩ := deliver_inv h
    have h1 := count_filterMap_eraseIdx Handoff.chan? ch s.handoffs k _ hk
    have h3 := countP_set (fun g : WorkerLoop => decide (g.w.JobChannel = ch) && !g.pc.idle)
      s.gos i _ { w := w, pc := WPc.executing t } hi
    simp [State.registry, State.held, chan?_waiting, chan?_holding, idle_announcing, idle_awaiting, idle_executing, idle_finishing, idle_stopped] at hb h1 h3 ⊢
    omega
  | announce i =>
    obtain ⟨w, hi, -, rfl⟩ := announce_inv h
    have hw : w.WorkerPool = s.d.workerPool :=
      hs.pool w (List.mem_map.mpr ⟨_, mem_of_getElem? hi, rfl⟩)
    have h3 := countP_set (fun g : WorkerLoop => decide (g.w.JobChannel = ch) && !g.pc.idle)
      s.gos i _ { w := w, pc := WPc.awaiting } hi
    simp [State.registry, State.held, idle_announcing, idle_awaiting, idle_executing, idle_finishing, idle_stopped, hw, upd_same, List.count_append,
      List.count_cons] at hb h3 ⊢
    omega
  | runRead i r =>
    obtain ⟨w, t, hi, rfl⟩ := runRead_inv h
    have h3 := countP_set (fun g : WorkerLoop => decide (g.w.JobChannel = ch) && !g.pc.idle)
      s.gos i _ { w := w, pc := WPc.finishing t } hi
    simp [State.registry, State.held, idle_announcing, idle_awaiting, idle_executing, idle_finishing, idle_stopped] at hb h3 ⊢
    omega
  | done i =>
    obtain ⟨w, t, hi, -, rfl⟩ := done_inv h
    have h3 := countP_set (fun g : WorkerLoop => decide (g.w.JobChannel = ch) && !g.pc.idle)
      s.gos i _ { w := w, pc := WPc.announcing } hi
    simp [State.registry, State.held, idle_announcing, idle_awaiting, idle_executing, idle_finishing, idle_stopped] at hb h3 ⊢
    omega
  | recvQuit i =>
    obtain ⟨w, hi, -, rfl⟩ := recvQuit_inv h
    have h3 := countP_set (fun g : WorkerLoop => decide (g.w.JobChannel = ch) && !g.pc.idle)
      s.gos i _ { w := w, pc := WPc.stopped } hi
    simp [State.registry, State.held, idle_announcing, idle_awaiting, idle_executing, idle_finishing, idle_stopped] at hb h3 ⊢
    omega
  | stop =>
    simp only [step, Stop_eq, Option.some.injEq] at h; subst h; exact hb

theorem Queue_step {a : Action} {s s' : State} (h : step a s = some s')
    (hq : Queue s) : Queue s' := by
  obtain ⟨ho, hr, hi⟩ := hq
  cases a with
  | submit j =>
    simp only [step, submit_eq, Option.some.injEq] at h; subst h
    refine ⟨?_, hr, ?_⟩
    · simp [State.waiting] at ho ⊢
      rw [ho]; simp
    · simp [List.range_succ, hi]
  | pull =>
    obtain ⟨t, q, sq, hw, hl, -, rfl⟩ := pull_inv h
    refine ⟨?_, ?_, ?_⟩
    · simp only [State.waiting] at ho hw
      simp only [received, State.waiting]
      rw [ho, hw]; simp
    · simp [received]; omega
    · simpa [received] using hi
  | take k =>
    obtain ⟨t, c, rest, -, -, rfl⟩ := take_inv h; exact ⟨ho, hr, hi⟩
  | deliver k i =>
    obtain ⟨t, w, -, -, rfl⟩ := deliver_inv h; exact ⟨ho, hr, hi⟩
  | announce i =>
    obtain ⟨w, -, -, rfl⟩ := announce_inv h; exact ⟨ho, hr, hi⟩
  | runRead i r =>
    obtain ⟨w, t, -, rfl⟩ := runRead_inv h; exact ⟨ho, hr, hi⟩
  | done i =>
    obtain ⟨w, t, -, -, rfl⟩ := done_inv h; exact ⟨ho, hr, hi⟩
  | recvQuit i =>
    obtain ⟨w, -, -, rfl⟩ := recvQuit_inv h; exact ⟨ho, hr, hi⟩
  | stop =>
    simp only [step, Stop_eq, Option.some.injEq] at h; subst h; exact ⟨ho, hr, hi⟩

theorem Jobs_step {a : Action} {s s' : State} (h : step a s = some s')
    (hj : Jobs s) : Jobs s' := by
  unfold Jobs at hj ⊢
  rw [List.perm_iff_count] at hj ⊢
  intro x
  have hb := hj x
  cases a with
  | submit j =>
    simp only [step, submit_eq, Option.some.injEq] at h; subst h
    simp [State.located, State.waiting, State.inHandoff, State.executing, List.count_append,
      List.count_cons] at hb ⊢
    omega
  | pull =>
    obtain ⟨t, q, sq, hw, -, -, rfl⟩ := pull_inv h
    simp only [State.waiting] at hw
    simp only [State.located, State.waiting, received] at hb ⊢
    rw [hw] at hb
    simp [State.inHandoff, State.executing, List.count_append, List.count_cons,
      ticket_waiting] at hb ⊢
    omega
  | take k =>
    obtain ⟨t, c, rest, hk, -, rfl⟩ := take_inv h
    have h1 := count_map_set Handoff.ticket x s.handoffs k _ (Handoff.holding t c) hk
    simp [State.located, State.waiting, State.inHandoff, State.executing, List.count_append,
      ticket_waiting, ticket_holding, -List.map_set] at hb h1 ⊢
    omega
  | deliver k i =>
    obtain ⟨t, w, hk, hi, rfl⟩ := deliver_inv h
    have h1 := count_map_eraseIdx Handoff.ticket x s.handoffs k _ hk
    have h2 := count_filterMap_set (fun g : WorkerLoop => g.pc.job?) x s.gos i _
      { w := w, pc := WPc.executing t } hi
    simp [State.located, State.waiting, State.inHandoff, State.executing, List.count_append,
      ticket_waiting, ticket_holding, job?_announcing, job?_awaiting, job?_executing, job?_finishing, job?_stopped] at hb h1 h2 ⊢
    omega
  | announce i =>
    obtain ⟨w, hi, -, rfl⟩ := announce_inv h
    have h2 := count_filterMap_set (fun g : WorkerLoop => g.pc.job?) x s.gos i _
      { w := w, pc := WPc.awaiting } hi
    simp [State.located, State.waiting, State.inHandoff, State.executing, List.count_append,
      job?_announcing, job?_awaiting, job?_executing, job?_finishing, job?_stopped] at hb h2 ⊢
    omega
  | runRead i r =>
    obtain ⟨w, t, hi, rfl⟩ := runRead_inv h
    have h2 := count_filterMap_set (fun g : WorkerLoop => g.pc.job?) x s.gos i _
      { w := w, pc := WPc.finishing t } hi
    simp [State.located, State.waiting, State.inHandoff, State.executing, List.count_append,
      job?_announcing, job?_awaiting, job?_executing, job?_finishing, job?_stopped] at hb h2 ⊢
    omega
  | done i =>
    obtain ⟨w, t, hi, -, rfl⟩ := done_inv h
    have h2 := count_filterMap_set (fun g : WorkerLoop => g.pc.job?) x s.gos i _
      { w := w, pc := WPc.announcing } hi
    by_cases hx : t = x
    · subst hx
      simp [State.located, State.waiting, State.inHandoff, State.executing, List.count_append,
        job?_announcing, job?_finishing] at hb h2 ⊢
      omega
    · simp [State.located, State.waiting, State.inHandoff, State.executing, List.count_append,
        List.count_cons, job?_announcing, job?_finishing, hx, beq_dec] at hb h2 ⊢
      omega
  | recvQuit i =>
    obtain ⟨w, hi, -, rfl⟩ := recvQuit_inv h
    have h2 := count_filterMap_set (fun g : WorkerLoop => g.pc.job?) x s.gos i _
      { w := w, pc := WPc.stopped } hi
    simp [State.located, State.waiting, State.inHandoff, State.executing, List.count_append,
      job?_announcing, job?_awaiting, job?_executing, job?_finishing, job?_stopped] at hb h2 ⊢
    omega
  | stop =>
    simp only [step, Stop_eq, Option.some.injEq] at h; subst h; exact hb

theorem Signals_step {wgs : Nat → Int} {a : Action} {s s' : State} (h : step a s = some s')
    (hg : Signals wgs s) : Signals wgs s' := by
  obtain ⟨hf, hc⟩ := hg
  cases a with
  | submit j =>
    simp only [step, submit_eq, Option.some.injEq] at h; subst h; exact ⟨hf, hc⟩
  | pull =>
    obtain ⟨t, q, sq, -, -, -, rfl⟩ := pull_inv h; exact ⟨hf, hc⟩
  | take k =>
    obtain ⟨t, c, rest, -, -, rfl⟩ := take_inv h; exact ⟨hf, hc⟩
  | deliver k i =>
    obtain ⟨t, w, -, -, rfl⟩ := deliver_inv h; exact ⟨hf, hc⟩
  | announce i =>
    obtain ⟨w, -, -, rfl⟩ := announce_inv h; exact ⟨hf, hc⟩
  | runRead i r =>
    obtain ⟨w, t, -, rfl⟩ := runRead_inv h; exact ⟨hf, hc⟩
  | done i =>
    obtain ⟨w, t, -, -, rfl⟩ := done_inv h
    refine ⟨by simp [hf], ?_⟩
    intro a
    have := hc a
    by_cases ha : a = t.2.wg
    · subst ha
      simp [upd_same, List.count_append, this]
      omega
    · have ha' : ¬ t.2.wg = a := fun e => ha e.symm
      simp [upd_other _ _ _ _ ha, List.count_append, List.count_cons, this, ha']
  | recvQuit i =>
    obtain ⟨w, -, -, rfl⟩ := recvQuit_inv h; exact ⟨hf, hc⟩
  | stop =>
    simp only [step, Stop_eq, Option.some.injEq] at h; subst h; exact ⟨hf, hc⟩

/-! ### `Run` in closed form -/

theorem runBody_gos (s : State) : (Dispatcher.runBody s).gos
    = s.gos ++ [{ w := { WorkerPool := s.d.workerPool, JobChannel := s.heap.next,
                         quit := s.heap.next + 1 }, pc := WPc.announcing }] := rfl
theorem runBody_workers (s : State) : (Dispatcher.runBody s).d.workers
    = s.d.workers ++ [{ WorkerPool := s.d.workerPool, JobChannel := s.heap.next,
                        quit := s.heap.next + 1 }] := rfl
theorem runBody_pool (s : State) : (Dispatcher.runBody s).d.workerPool = s.d.workerPool := rfl
theorem runBody_maxWorkers (s : State) :
    (Dispatcher.runBody s).d.maxWorkers = s.d.maxWorkers := rfl
theorem runBody_next (s : State) : (Dispatcher.runBody s).heap.next = s.heap.next + 2 := rfl
theorem runBody_cap (s : State) : (Dispatcher.runBody s).heap.cap
    = upd (upd s.heap.cap s.heap.next 0) (s.heap.next + 1) 0 := rfl
theorem runBody_buf (s : State) : (Dispatcher.runBody s).heap.buf
    = upd (upd s.heap.buf s.heap.next []) (s.heap.next + 1) [] := rfl

theorem runLoop_gos (n : Nat) : ∀ s : State, (Dispatcher.runLoop n s).gos
    = s.gos ++ (freshWorkers s.d.workerPool s.heap.next n).map
        (fun w => { w := w, pc := WPc.announcing }) := by
  induction n with
  | zero => intro s; simp [Dispatcher.runLoop, freshWorkers]
  | succ n ih =>
    intro s
    rw [Dispatcher.runLoop, ih, runBody_gos, runBody_pool, runBody_next]
    simp [freshWorkers]

theorem runLoop_workers (n : Nat) : ∀ s : State, (Dispatcher.runLoop n s).d.workers
    = s.d.workers ++ freshWorkers s.d.workerPool s.heap.next n := by
  induction n with
  | zero => intro s; simp [Dispatcher.runLoop, freshWorkers]
  | succ n ih =>
    intro s
    rw [Dispatcher.runLoop, ih, runBody_workers, runBody_pool, runBody_next]
    simp [freshWorkers]

theorem runLoop_pool (n : Nat) : ∀ s : State,
    (Dispatcher.runLoop n s).d.workerPool = s.d.workerPool
      ∧ (Dispatcher.runLoop n s).d.maxWorkers = s.d.maxWorkers := by
  induction n with
  | zero => intro s; exact ⟨rfl, rfl⟩
  | succ n ih =>
    intro s
    rw [Dispatcher.runLoop, (ih _).1, (ih _).2]
    exact ⟨rfl, rfl⟩

theorem runLoop_next (n : Nat) : ∀ s : State,
    (Dispatcher.runLoop n s).heap.next = s.heap.next + 2 * n := by
  induction n with
  | zero => intro s; rfl
  | succ n ih =>
    intro s
    rw [Dispatcher.runLoop, ih, runBody_next]; omega

theorem runLoop_old (n : Nat) : ∀ (s : State) (a : Nat), a < s.heap.next →
    (Dispatcher.runLoop n s).heap.cap a = s.heap.cap a
      ∧ (Dispatcher.runLoop n s).heap.buf a = s.heap.buf a := by
  induction n with
  | zero => intro s a _; exact ⟨rfl, rfl⟩
  | succ n ih =>
    intro s a ha
    have e1 : a ≠ s.heap.next + 1 := by omega
    have e2 : a ≠ s.heap.next := by omega
    have := ih (Dispatcher.runBody s) a (by rw [runBody_next]; omega)
    rw [Dispatcher.runLoop, this.1, this.2, runBody_cap, runBody_buf]
    simp [upd_other _ _ _ _ e1, upd_other _ _ _ _ e2]

theorem runLoop_rest (n : Nat) : ∀ s : State,
    (Dispatcher.runLoop n s).dispatchers = s.dispatchers
      ∧ (Dispatcher.runLoop n s).JobQueue = s.JobQueue
      ∧ (Dispatcher.runLoop n s).sendq = s.sendq
      ∧ (Dispatcher.runLoop n s).handoffs = s.handoffs
      ∧ (Dispatcher.runLoop n s).stops = s.stops
      ∧ (Dispatcher.runLoop n s).wgs = s.wgs
      ∧ (Dispatcher.runLoop n s).out = s.out
      ∧ (Dispatcher.runLoop n s).submitted = s.submitted
      ∧ (Dispatcher.runLoop n s).pulled = s.pulled
      ∧ (Dispatcher.runLoop n s).completed = s.completed
      ∧ (Dispatcher.runLoop n s).signals = s.signals := by
  induction n with
  | zero => intro s; exact ⟨rfl, rfl, rfl, rfl, rfl, rfl, rfl, rfl, rfl, rfl, rfl⟩
  | succ n ih =>
    intro s
    rw [Dispatcher.runLoop]
    exact ih (Dispatcher.runBody s)

theorem freshWorkers_length (pool : Nat) (n : Nat) :
    ∀ base, (freshWorkers pool base n).length = n := by
  induction n with
  | zero => intro base; rfl
  | succ n ih => intro base; simp [freshWorkers, ih]

theorem freshWorkers_pool (pool : Nat) (n : Nat) :
    ∀ base, ∀ w ∈ freshWorkers pool base n, w.WorkerPool = pool := by
  induction n with
  | zero => intro base w hw; simp [freshWorkers] at hw
  | succ n ih =>
    intro base w hw
    simp only [freshWorkers, List.mem_cons] at hw
    rcases hw with rfl | hw
    · rfl
    · exact ih _ w hw

theorem freshWorkers_chans (pool : Nat) (n : Nat) :
    ∀ base, ((freshWorkers pool base n).map Worker.chans).flatten = List.range' base (2 * n) := by
  induction n with
  | zero => intro base; rfl
  | succ n ih =>
    intro base
    have : 2 * (n + 1) = (2 * n + 1) + 1 := by omega
    rw [this]
    simp [freshWorkers, ih, Worker.chans, List.range'_succ]

theorem freshWorkers_bounds (pool : Nat) (n : Nat) :
    ∀ base, ∀ w ∈ freshWorkers pool base n,
      base ≤ w.JobChannel ∧ w.quit = w.JobChannel + 1 ∧ w.quit < base + 2 * n := by
  induction n with
  | zero => intro base w hw; simp [freshWorkers] at hw
  | succ n ih =>
    intro base w hw
    simp only [freshWorkers, List.mem_cons] at hw
    rcases hw with rfl | hw
    · simp; omega
    · have := ih _ w hw
      omega

theorem freshWorkers_jcs (pool : Nat) (n : Nat) :
    ∀ base, ((freshWorkers pool base n).map (fun w => w.JobChannel)).Nodup := by
  induction n with
  | zero => intro base; simp [freshWorkers]
  | succ n ih =>
    intro base
    simp only [freshWorkers, List.map_cons, List.nodup_cons]
    refine ⟨?_, ih _⟩
    intro hm
    obtain ⟨w, hw, he⟩ := List.mem_map.mp hm
    have := freshWorkers_bounds pool n (base + 2) w hw
    omega

theorem freshWorkers_quits (pool : Nat) (n : Nat) :
    ∀ base, ((freshWorkers pool base n).map (fun w => w.quit)).Nodup := by
  induction n with
  | zero => intro base; simp [freshWorkers]
  | succ n ih =>
    intro base
    simp only [freshWorkers, List.map_cons, List.nodup_cons]
    refine ⟨?_, ih _⟩
    intro hm
    obtain ⟨w, hw, he⟩ := List.mem_map.mp hm
    have := freshWorkers_bounds pool n (base + 2) w hw
    omega

/-! ### The initial state -/

theorem makechanPanics_false {n : Int} (hn : 0 ≤ n)
    (hmax : chanElemSize * n ≤ maxAlloc - hchanSize) : makechanPanics chanElemSize n = false := by
  unfold makechanPanics
  rw [decide_eq_false_iff_not]
  intro h
  rcases h with h | h <;> omega

theorem makechanPanics_true {n : Int}
    (h : n < 0 ∨ maxAlloc - hchanSize < chanElemSize * n) : makechanPanics chanElemSize n = true := by
  unfold makechanPanics
  exact decide_eq_true h

theorem NewDispatcher_some {n : Int} {h : Heap} {p : Dispatcher × Heap}
    (hp : NewDispatcher n h = some p) :
    0 ≤ n ∧ chanElemSize * n ≤ maxAlloc - hchanSize := by
  unfold NewDispatcher at hp
  split at hp
  · simp at hp
  · rename_i hc
    unfold makechanPanics at hc
    simp only [decide_eq_true_eq] at hc
    constructor <;> omega

theorem NewDispatcher_eq {n : Int} (hn : 0 ≤ n)
    (hmax : chanElemSize * n ≤ maxAlloc - hchanSize) (h : Heap) :
    NewDispatcher n h = some
      ({ workerPool := h.next, maxWorkers := n, workers := [] },
       { next := h.next + 1, cap := upd h.cap h.next n.toNat, buf := upd h.buf h.next [] }) := by
  simp only [NewDispatcher, makechanPanics_false hn hmax, Heap.make]
  rfl

theorem started_eq {n : Int} (hn : 0 ≤ n)
    (hmax : chanElemSize * n ≤ maxAlloc - hchanSize) (wgs : Nat → Int) :
    started n wgs = some (Dispatcher.Run (created (firstDispatcher n) (firstHeap n) wgs)) := by
  simp only [started, NewDispatcher_eq hn hmax, Option.map_some']
  rfl

theorem started_some {n : Int} {wgs : Nat → Int} {s : State} (h : started n wgs = some s) :
    0 ≤ n ∧ chanElemSize * n ≤ maxAlloc - hchanSize := by
  unfold started at h
  cases hp : NewDispatcher n emptyHeap with
  | none => rw [hp] at h; simp at h
  | some p => exact NewDispatcher_some hp

theorem started_fields {W : Nat} {wgs : Nat → Int} {s : State} (h : started W wgs = some s) :
    s.gos = (freshWorkers 0 1 W).map (fun w => { w := w, pc := WPc.announcing })
      ∧ s.d = { workerPool := 0, maxWorkers := W, workers := freshWorkers 0 1 W }
      ∧ s.heap.cap 0 = W ∧ s.heap.buf 0 = [] ∧ s.heap.next = 1 + 2 * W
      ∧ s.dispatchers = 1 ∧ s.JobQueue = [] ∧ s.sendq = [] ∧ s.handoffs = [] ∧ s.stops = []
      ∧ s.wgs = wgs ∧ s.out = [] ∧ s.submitted = [] ∧ s.pulled = [] ∧ s.completed = []
      ∧ s.signals = [] := by
  rw [started_eq (started_some h).1 (started_some h).2] at h
  simp only [Option.some.injEq] at h
  subst h
  have hmw : (created (firstDispatcher W) (firstHeap W) wgs).d.maxWorkers.toNat = W :=
    Int.toNat_ofNat W
  simp only [Dispatcher.Run, hmw]
  obtain ⟨r1, r2, r3, r4, r5, r6, r7, r8, r9, r10, r11⟩ :=
    runLoop_rest W (created (firstDispatcher W) (firstHeap W) wgs)
  have hold := runLoop_old W (created (firstDispatcher W) (firstHeap W) wgs) 0
    (by simp [created, firstHeap])
  have hp := runLoop_pool W (created (firstDispatcher W) (firstHeap W) wgs)
  have hw := runLoop_workers W (created (firstDispatcher W) (firstHeap W) wgs)
  refine ⟨?_, ?_, ?_, ?_, ?_, ?_, r2, r3, r4, r5, r6, r7, r8, r9, r10, r11⟩
  · rw [runLoop_gos]; simp [created, firstDispatcher, firstHeap]
  · cases hd : (Dispatcher.runLoop W (created (firstDispatcher W) (firstHeap W) wgs)).d with
    | mk p m ws =>
      rw [hd] at hp hw
      simp [created, firstDispatcher, firstHeap] at hp hw
      simp [hp.1, hp.2, hw]
  · rw [hold.1]; simp [created, firstHeap, upd_same]
  · rw [hold.2]; simp [created, firstHeap, upd_same]
  · rw [runLoop_next]; simp [created, firstHeap]
  · rw [r1]; rfl

theorem countP_map_announcing (ch : Nat) (ws : List Worker) :
    (ws.map (fun w => ({ w := w, pc := WPc.announcing } : WorkerLoop))).countP
        (fun g => decide (g.w.JobChannel = ch) && !g.pc.idle)
      = (ws.map (fun w => w.JobChannel)).count ch := by
  induction ws with
  | nil => rfl
  | cons w ws ih =>
    simp only [List.map_cons, List.countP_cons, List.count_cons, ih, idle_announcing]
    simp

theorem Inv_started {W : Nat} {wgs : Nat → Int} {s : State} (h : started W wgs = some s) :
    Inv W wgs s := by
  obtain ⟨hg, hd, hc, hb, -, hdi, hq, hsq, hh, -, hwg, -, hsub, hpl, hcp, hsg⟩ := started_fields h
  have hmap : s.gos.map (fun g => g.w) = freshWorkers 0 1 W := by
    rw [hg, List.map_map]; simp [Function.comp_def]
  have hpool : s.d.workerPool = 0 := by rw [hd]
  refine ⟨⟨?_, ?_, ?_, ?_, ?_, ?_, ?_, hdi⟩, ?_, ?_, ⟨?_, ?_, ?_⟩, ?_, ⟨?_, ?_⟩⟩
  · rw [hmap, hpool]; exact freshWorkers_pool 0 W 1
  · rw [hpool]; exact hc
  · rw [hd]
  · rw [hmap, hd]
  · rw [hmap]; exact freshWorkers_length 0 W 1
  · rw [hmap]; exact freshWorkers_jcs 0 W 1
  · rw [hmap]; exact freshWorkers_quits 0 W 1
  · simp [Balanced, State.registry, State.held, State.announcers, State.executing, hpool, hb,
      hh, hg, List.countP_map, Function.comp_def, List.filterMap_map, job?_announcing,
      freshWorkers_length]
  · intro ch
    rw [hmap]
    simp only [State.registry, State.held, hpool, hb, hh, hg, List.filterMap_nil,
      List.count_nil, Nat.zero_add]
    exact countP_map_announcing ch _
  · simp [State.waiting, hsub, hpl, hq, hsq]
  · simp [hq]
  · simp [hsub]
  · simp [Jobs, State.located, State.waiting, State.inHandoff, State.executing, hq, hsq, hh,
      hcp, hsub, hg, List.filterMap_map, Function.comp_def, job?_announcing]
  · simp [hsg, hcp]
  · intro a; simp [hwg, hsg]

theorem Inv_step {W : Nat} {wgs : Nat → Int} {a : Action} {s s' : State}
    (h : step a s = some s') (hi : Inv W wgs s) : Inv W wgs s' :=
  ⟨Static_step h hi.1, Balanced_step h hi.1 hi.2.1, Handles_step h hi.1 hi.2.2.1,
    Queue_step h hi.2.2.2.1, Jobs_step h hi.2.2.2.2.1, Signals_step h hi.2.2.2.2.2⟩

theorem Inv_run {W : Nat} {wgs : Nat → Int} (tr : List Action) :
    ∀ {s s' : State}, run tr s = some s' → Inv W wgs s → Inv W wgs s' := by
  induction tr with
  | nil => intro s s' h hi; simp [run] at h; subst h; exact hi
  | cons a tr ih =>
    intro s s' h hi
    simp only [run] at h
    cases hs : step a s with
    | none => rw [hs] at h; simp at h
    | some s1 =>
      rw [hs] at h
      exact ih h (Inv_step hs hi)

theorem Inv_exec {W : Nat} {wgs : Nat → Int} {tr : List Action} {s : State}
    (h : exec W wgs tr = some s) : Inv W wgs s := by
  unfold exec at h
  cases hs : started W wgs with
  | none => rw [hs] at h; simp at h
  | some s0 =>
    rw [hs] at h
    exact Inv_run tr h (Inv_started hs)

/-! ## The claims -/

theorem announce_some {i : Nat} {w : Worker} {s : State}
    (hi : s.gos[i]? = some { w := w, pc := WPc.announcing })
    (hr : (s.heap.buf w.WorkerPool).length < s.heap.cap w.WorkerPool) :
    announce i s = some { s with
      heap := { s.heap with
        buf := upd s.heap.buf w.WorkerPool (s.heap.buf w.WorkerPool ++ [w.JobChannel]) },
      gos := s.gos.set i { w := w, pc := WPc.awaiting } } := by
  simp only [announce, hi, hr, if_true]

theorem runRead_some {i : Nat} {w : Worker} {t : Ticket} {s : State}
    (hi : s.gos[i]? = some { w := w, pc := WPc.executing t }) (r : Except String String) :
    runRead i r s = some { s with out := s.out ++ readBody r,
                                  gos := s.gos.set i { w := w, pc := WPc.finishing t } } := by
  simp only [runRead, hi]

theorem done_some {i : Nat} {w : Worker} {t : Ticket} {s : State}
    (hi : s.gos[i]? = some { w := w, pc := WPc.finishing t }) (hpos : 0 < s.wgs t.2.wg) :
    done i s = some { s with wgs := upd s.wgs t.2.wg (s.wgs t.2.wg - 1),
                             signals := s.signals ++ [t.2.wg],
                             completed := s.completed ++ [t],
                             gos := s.gos.set i { w := w, pc := WPc.announcing } } := by
  simp only [done, hi, wgDone_some hpos]

theorem recvQuit_some {i : Nat} {w : Worker} {s : State}
    (hi : s.gos[i]? = some { w := w, pc := WPc.awaiting }) (hq : w.quit ∈ s.stops) :
    recvQuit i s = some { s with stops := s.stops.erase w.quit,
                                 gos := s.gos.set i { w := w, pc := WPc.stopped } } := by
  simp only [recvQuit, hi, hq, if_true]

theorem getElem?_set_same {α : Type} {l : List α} {i : Nat} {x : α} (y : α)
    (h : l[i]? = some x) : (l.set i y)[i]? = some y := by
  have hil : i < l.length := (List.getElem?_eq_some.mp h).1
  simp [hil]

theorem executing_le_gos (s : State) : s.executing.length ≤ s.gos.length :=
  List.length_filterMap_le _ _

theorem submitted_nodup {s : State} (hq : Queue s) : s.submitted.Nodup := by
  have h := List.nodup_range s.submitted.length
  rw [← hq.ids] at h
  exact List.Nodup.of_map _ h

/-- C8. The queue preserves submission order: in every reachable state the jobs
`dispatch` has pulled are a prefix of the jobs submitted, and what follows
the prefix is exactly the waiting jobs, in order. -/
theorem pulled_initial_segment_of_submitted (W : Nat) (wgs : Nat → Int) (tr : List Action)
    (s : State) (h : exec W wgs tr = some s) :
    s.pulled <+: s.submitted ∧ s.submitted = s.pulled ++ s.waiting := by
  have hq := (Inv_exec h).2.2.2.1
  exact ⟨⟨s.waiting, hq.order.symm⟩, hq.order⟩

theorem pulled_initial_segment_of_submitted_witness :
    ∃ s, exec 2 (fun _ => 2) twoJobs = some s ∧ s.pulled <+: s.submitted
      ∧ s.submitted = s.pulled ++ s.waiting :=
  ⟨_, rfl, pulled_initial_segment_of_submitted 2 (fun _ => 2) twoJobs _ rfl⟩

/-- C10. After `NewDispatcher(W)` and one `Run()`, the handles in the registry
plus the workers about to announce are at most `W`, so the registry has room
whenever a worker is at its announcing send and that send is enabled. -/
theorem announce_never_blocks (W : Nat) (wgs : Nat → Int) (tr : List Action)
    (s : State) (h : exec W wgs tr = some s) :
    s.registry.length + s.announcers ≤ W
      ∧ s.heap.cap s.d.workerPool = W
      ∧ ∀ i w, s.gos[i]? = some { w := w, pc := WPc.announcing } →
          w.WorkerPool = s.d.workerPool ∧ s.registry.length < W
            ∧ ∃ s', step (.announce i) s = some s'
                ∧ s'.gos[i]? = some { w := w, pc := WPc.awaiting } := by
  obtain ⟨hs, hb, -⟩ := Inv_exec h
  unfold Balanced at hb
  refine ⟨by omega, hs.cap, ?_⟩
  intro i w hi
  have hw : w.WorkerPool = s.d.workerPool :=
    hs.pool w (List.mem_map.mpr ⟨_, mem_of_getElem? hi, rfl⟩)
  have hpos : 0 < s.announcers := by
    unfold State.announcers
    exact List.countP_pos_iff.mpr ⟨_, mem_of_getElem? hi, by simp⟩
  have hlt : s.registry.length < W := by omega
  refine ⟨hw, hlt, ?_⟩
  have hroom : (s.heap.buf w.WorkerPool).length < s.heap.cap w.WorkerPool := by
    rw [hw, hs.cap]; exact hlt
  exact ⟨_, announce_some hi hroom, getElem?_set_same _ hi⟩

theorem announce_never_blocks_witness :
    ∃ s, exec 2 (fun _ => 2) twoJobs = some s
      ∧ s.registry.length + s.announcers ≤ 2
      ∧ s.heap.cap s.d.workerPool = 2
      ∧ ∀ i w, s.gos[i]? = some { w := w, pc := WPc.announcing } →
          w.WorkerPool = s.d.workerPool ∧ s.registry.length < 2
            ∧ ∃ s', step (.announce i) s = some s'
                ∧ s'.gos[i]? = some { w := w, pc := WPc.awaiting } :=
  ⟨_, rfl, announce_never_blocks 2 (fun _ => 2) twoJobs _ rfl⟩

theorem located_nodup {s : State} (hq : Queue s) (hj : Jobs s) : s.located.Nodup :=
  (List.Perm.nodup_iff hj).mpr (submitted_nodup hq)

theorem idle_cases {pc : WPc} (h : pc.idle = true) : pc = WPc.awaiting ∨ pc = WPc.stopped := by
  cases pc <;> simp [WPc.idle] at h ⊢

theorem deliver_busy_none {k i : Nat} {g : WorkerLoop} {s : State}
    (hi : s.gos[i]? = some g) (hb : g.pc ≠ WPc.awaiting) : deliver k i s = none := by
  cases hd : deliver k i s with
  | none => rfl
  | some s' =>
    obtain ⟨t, w, -, hi', -⟩ := deliver_inv hd
    rw [hi] at hi'
    simp only [Option.some.injEq] at hi'
    subst hi'
    exact absurd rfl hb

/-- C4. In every reachable state, stop signals delivered or not, no handle
occurs twice among the registry and the handles held by handoffs (so each
worker's handle is in the registry at most once), and a worker whose handle is
in the registry or held by a handoff is neither executing a job nor about to
announce: it waits at its `select` or has returned. -/
theorem handle_registered_at_most_once (W : Nat) (wgs : Nat → Int) (tr : List Action)
    (s : State) (h : exec W wgs tr = some s) :
    s.registry.Nodup ∧ (s.registry ++ s.held).Nodup
      ∧ ∀ g ∈ s.gos, g.w.JobChannel ∈ s.registry ++ s.held →
          g.pc.job? = none ∧ g.pc ≠ WPc.announcing
            ∧ (g.pc = WPc.awaiting ∨ g.pc = WPc.stopped) := by
  obtain ⟨hs, -, hh, -⟩ := Inv_exec h
  have htot : ∀ ch, ((s.gos.map (fun g => g.w)).map (fun w => w.JobChannel)).count ch ≤ 1 :=
    List.nodup_iff_count_le_one.mp hs.jcs
  have hnd : (s.registry ++ s.held).Nodup := by
    rw [List.nodup_iff_count_le_one]
    intro ch
    have h1 := hh ch
    have h2 := htot ch
    rw [List.count_append]
    omega
  refine ⟨(List.nodup_append.mp hnd).1, hnd, ?_⟩
  intro g hg hmem
  have h1 := hh g.w.JobChannel
  have h2 := htot g.w.JobChannel
  have h3 : 0 < (s.registry ++ s.held).count g.w.JobChannel := List.count_pos_iff.mpr hmem
  rw [List.count_append] at h3
  have h4 : s.gos.countP (fun g' => decide (g'.w.JobChannel = g.w.JobChannel) && !g'.pc.idle) = 0 := by
    omega
  have h5 := (List.countP_eq_zero.mp h4) g hg
  have hidle : g.pc.idle = true := by simpa using h5
  rcases idle_cases hidle with e | e <;> simp [e, WPc.job?]

theorem handle_registered_at_most_once_witness :
    ∃ s, exec 1 (fun _ => 1) stopDelivered = some s
      ∧ s.registry.Nodup ∧ (s.registry ++ s.held).Nodup
      ∧ ∀ g ∈ s.gos, g.w.JobChannel ∈ s.registry ++ s.held →
          g.pc.job? = none ∧ g.pc ≠ WPc.announcing
            ∧ (g.pc = WPc.awaiting ∨ g.pc = WPc.stopped) :=
  ⟨_, rfl, handle_registered_at_most_once 1 (fun _ => 1) stopDelivered _ rfl⟩

/-- C3. In every reachable state the workers executing a job (from the receive
on `JobChannel` to the return of `read`) are at most `W` and at most the jobs
submitted and not yet completed; a worker executes one job at a time: no job
is executed by two workers and no handoff can deliver to a worker that is
executing. -/
theorem executing_bounded (W : Nat) (wgs : Nat → Int) (tr : List Action)
    (s : State) (h : exec W wgs tr = some s) :
    s.executing.length = s.gos.countP (fun g => g.pc.job?.isSome)
      ∧ s.executing.length ≤ W
      ∧ s.executing.length + s.completed.length ≤ s.submitted.length
      ∧ s.executing.Nodup
      ∧ ∀ i g, s.gos[i]? = some g → g.pc.job?.isSome → ∀ k, step (.deliver k i) s = none := by
  obtain ⟨hs, -, -, hq, hj, -⟩ := Inv_exec h
  have hlen : s.gos.length = W := by simpa using hs.len
  have hl := List.Perm.length_eq hj
  have hnd := located_nodup hq hj
  refine ⟨?_, ?_, ?_, ?_, ?_⟩
  · unfold State.executing
    rw [length_filterMap_eq_sum, countP_eq_sum]
  · have := executing_le_gos s; omega
  · simp only [State.located, List.length_append] at hl
    omega
  · unfold State.located at hnd
    exact (List.nodup_append.mp (List.nodup_append.mp hnd).1).2.1
  · intro i g hi hb k
    refine deliver_busy_none hi ?_
    intro e
    rw [e] at hb
    simp [WPc.job?] at hb

theorem executing_bounded_witness :
    ∃ s, exec 2 (fun _ => 2) (twoJobs.take 11) = some s
      ∧ s.executing.length = s.gos.countP (fun g => g.pc.job?.isSome)
      ∧ s.executing.length ≤ 2
      ∧ s.executing.length + s.completed.length ≤ s.submitted.length
      ∧ s.executing.Nodup
      ∧ ∀ i g, s.gos[i]? = some g → g.pc.job?.isSome → ∀ k, step (.deliver k i) s = none :=
  ⟨_, rfl, executing_bounded 2 (fun _ => 2) (twoJobs.take 11) _ rfl⟩

/-- C1. No job is lost or duplicated: in every reachable state (of every
execution, those without a `Stop()` before the completions included) the four places
a job can be in (waiting in the queue, held by a handoff, executed by a
worker, completed) together hold exactly the submitted jobs, each once; as
many completion signals have fired as jobs have completed; and a wait group
whose counter started at `N` is at 0 exactly when `N` signals have fired on it
(all signals, when every submitted job carries that wait group, and then the
counter never goes below 0 while at most `N` jobs are submitted). -/
theorem no_job_lost_or_duplicated (W N : Nat) (wg : Nat) (wgs : Nat → Int) (hN : wgs wg = N)
    (tr : List Action) (s : State) (h : exec W wgs tr = some s) :
    s.located.Perm s.submitted ∧ s.located.Nodup
      ∧ s.signals.length = s.completed.length
      ∧ (s.wgs wg = 0 ↔ s.signals.count wg = N)
      ∧ ((∀ t ∈ s.submitted, t.2.wg = wg) →
          (s.wgs wg = 0 ↔ s.signals.length = N)
            ∧ (s.submitted.length ≤ N → 0 ≤ s.wgs wg)) := by
  obtain ⟨-, -, -, hq, hj, hg⟩ := Inv_exec h
  have hc := hg.counter wg
  have hl := List.Perm.length_eq hj
  have hsl : s.signals.length = s.completed.length := by rw [hg.fired]; simp
  refine ⟨hj, located_nodup hq hj, hsl, ?_, ?_⟩
  · rw [hc, hN]; omega
  · intro hall
    have hcount : s.signals.count wg = s.signals.length := by
      rw [List.count_eq_length]
      intro a ha
      rw [hg.fired] at ha
      obtain ⟨t, ht, rfl⟩ := List.mem_map.mp ha
      have : t ∈ s.located := by
        simp only [State.located, List.mem_append]
        exact Or.inr ht
      exact (hall t ((List.Perm.mem_iff hj).mp this)).symm
    simp only [State.located, List.length_append] at hl
    refine ⟨by rw [hc, hN, hcount]; omega, ?_⟩
    intro hle
    rw [hc, hN, hcount]
    omega

theorem no_job_lost_or_duplicated_witness :
    ∃ s, exec 2 (fun _ => 2) twoJobs = some s
      ∧ s.located.Perm s.submitted ∧ s.located.Nodup
      ∧ s.signals.length = s.completed.length
      ∧ (s.wgs 0 = 0 ↔ s.signals.count 0 = 2)
      ∧ ((∀ t ∈ s.submitted, t.2.wg = 0) →
          (s.wgs 0 = 0 ↔ s.signals.length = 2)
            ∧ (s.submitted.length ≤ 2 → 0 ≤ s.wgs 0)) :=
  ⟨_, rfl, no_job_lost_or_duplicated 2 2 0 (fun _ => 2) rfl twoJobs _ rfl⟩

theorem getElem?_set_other {α : Type} (l : List α) {i j : Nat} (y : α) (h : j ≠ i) :
    (l.set j y)[i]? = l[i]? := by
  simp [List.getElem?_set, h]

/-- A step that is not a step of worker `i` leaves worker `i` where it is. -/
theorem step_gos_other {a : Action} {s s' : State} {i : Nat} (h : step a s = some s')
    (ha : a.worker? ≠ some i) : s'.gos[i]? = s.gos[i]? := by
  cases a with
  | submit j =>
    simp only [step, submit_eq, Option.some.injEq] at h; subst h; rfl
  | pull =>
    obtain ⟨t, q, sq, -, -, -, rfl⟩ := pull_inv h; rfl
  | take k =>
    obtain ⟨t, ch, rest, -, -, rfl⟩ := take_inv h; rfl
  | deliver k j =>
    obtain ⟨t, w, -, -, rfl⟩ := deliver_inv h
    exact getElem?_set_other _ _ (fun e => ha (by simp [Action.worker?, e]))
  | announce j =>
    obtain ⟨w, -, -, rfl⟩ := announce_inv h
    exact getElem?_set_other _ _ (fun e => ha (by simp [Action.worker?, e]))
  | runRead j r =>
    obtain ⟨w, t, -, rfl⟩ := runRead_inv h
    exact getElem?_set_other _ _ (fun e => ha (by simp [Action.worker?, e]))
  | done j =>
    obtain ⟨w, t, -, -, rfl⟩ := done_inv h
    exact getElem?_set_other _ _ (fun e => ha (by simp [Action.worker?, e]))
  | recvQuit j =>
    obtain ⟨w, -, -, rfl⟩ := recvQuit_inv h
    exact getElem?_set_other _ _ (fun e => ha (by simp [Action.worker?, e]))
  | stop =>
    simp only [step, Stop_eq, Option.some.injEq] at h; subst h; rfl

/-- Where worker `i` must be for one of its steps to be enabled. -/
theorem step_worker_pc {a : Action} {s s' : State} {i : Nat} (h : step a s = some s')
    (ha : a.worker? = some i) :
    ∃ w pc, s.gos[i]? = some { w := w, pc := pc } ∧ pc ≠ WPc.stopped
      ∧ (pc = WPc.awaiting → a = .recvQuit i
          ∨ ∃ k t, a = .deliver k i ∧ s.handoffs[k]? = some (Handoff.holding t w.JobChannel)) := by
  cases a with
  | submit j => simp [Action.worker?] at ha
  | pull => simp [Action.worker?] at ha
  | take k => simp [Action.worker?] at ha
  | stop => simp [Action.worker?] at ha
  | deliver k j =>
    simp only [Action.worker?, Option.some.injEq] at ha; subst ha
    obtain ⟨t, w, hk, hi, -⟩ := deliver_inv h
    exact ⟨w, _, hi, by simp, fun _ => Or.inr ⟨k, t, rfl, hk⟩⟩
  | announce j =>
    simp only [Action.worker?, Option.some.injEq] at ha; subst ha
    obtain ⟨w, hi, -, -⟩ := announce_inv h
    exact ⟨w, _, hi, by simp, fun e => by simp at e⟩
  | runRead j r =>
    simp only [Action.worker?, Option.some.injEq] at ha; subst ha
    obtain ⟨w, t, hi, -⟩ := runRead_inv h
    exact ⟨w, _, hi, by simp, fun e => by simp at e⟩
  | done j =>
    simp only [Action.worker?, Option.some.injEq] at ha; subst ha
    obtain ⟨w, t, hi, -, -⟩ := done_inv h
    exact ⟨w, _, hi, by simp, fun e => by simp at e⟩
  | recvQuit j =>
    simp only [Action.worker?, Option.some.injEq] at ha; subst ha
    obtain ⟨w, hi, -, -⟩ := recvQuit_inv h
    exact ⟨w, _, hi, by simp, fun _ => Or.inl rfl⟩

/-- A worker that has returned takes no step. -/
theorem stopped_no_step {a : Action} {s : State} {i : Nat} {w : Worker}
    (hi : s.gos[i]? = some { w := w, pc := WPc.stopped }) (ha : a.worker? = some i) :
    step a s = none := by
  cases h : step a s with
  | none => rfl
  | some s' =>
    obtain ⟨w', pc, hi', hne, -⟩ := step_worker_pc h ha
    rw [hi] at hi'
    simp only [Option.some.injEq, WorkerLoop.mk.injEq] at hi'
    exact absurd hi'.2.symm hne

/-- A worker that has returned stays so, whatever runs afterwards. -/
theorem stopped_forever (tr : List Action) : ∀ {s s' : State} {i : Nat} {w : Worker},
    run tr s = some s' → s.gos[i]? = some { w := w, pc := WPc.stopped } →
      s'.gos[i]? = some { w := w, pc := WPc.stopped } := by
  induction tr with
  | nil => intro s s' i w h hi; simp [run] at h; subst h; exact hi
  | cons a tr ih =>
    intro s s' i w h hi
    simp only [run] at h
    cases hs : step a s with
    | none => rw [hs] at h; simp at h
    | some s1 =>
      rw [hs] at h
      refine ih h ?_
      by_cases ha : a.worker? = some i
      · rw [stopped_no_step hi ha] at hs; simp at hs
      · rw [step_gos_other hs ha]; exact hi

/-- C5, counterexample. One worker, one job: the handoff has taken the
worker's handle, then `Stop()` is called.  The worker is at its `select` with
the stop signal pending, and receiving the job is a step it can take; it then
executes the job to completion. -/
theorem stop_pending_job_still_accepted :
    ∃ s s' s'', exec 1 (fun _ => 1) stopRace = some s
      ∧ s.gos[0]? = some { w := { WorkerPool := 0, JobChannel := 1, quit := 2 }, pc := WPc.awaiting }
      ∧ 2 ∈ s.stops
      ∧ (Action.deliver 0 0).worker? = some 0
      ∧ step (.deliver 0 0) s = some s'
      ∧ s'.gos[0]? = some { w := { WorkerPool := 0, JobChannel := 1, quit := 2 },
                            pc := WPc.executing (0, work) }
      ∧ run [.runRead 0 (.ok "Hello, world"), .done 0] s' = some s''
      ∧ s''.completed = [(0, work)] :=
  ⟨_, _, _, rfl, by decide, by decide, rfl, rfl, by decide, rfl, by decide⟩

/-- C5, amended. In every state, reachable or not, where a worker is at its `select` and
a stop signal is pending on its quit channel, the transition to Stopped is
enabled; any other step of the worker is the receipt of a job from a handoff
that holds its handle, so with no such handoff the transition to Stopped is
its only step; and once Stopped the worker never takes a step again. -/
theorem stop_observed_at_select (s : State) (i : Nat) (w : Worker)
    (hi : s.gos[i]? = some { w := w, pc := WPc.awaiting }) (hq : w.quit ∈ s.stops) :
    (∃ s', step (.recvQuit i) s = some s'
        ∧ s'.gos[i]? = some { w := w, pc := WPc.stopped }
        ∧ ∀ tr' s'', run tr' s' = some s'' →
            s''.gos[i]? = some { w := w, pc := WPc.stopped }
              ∧ ∀ a, a.worker? = some i → step a s'' = none)
      ∧ (∀ a s', a.worker? = some i → step a s = some s' →
          a = .recvQuit i
            ∨ ∃ k t, a = .deliver k i ∧ s.handoffs[k]? = some (Handoff.holding t w.JobChannel))
      ∧ (w.JobChannel ∉ s.held →
          ∀ a s', a.worker? = some i → step a s = some s' → a = .recvQuit i) := by
  have hcases : ∀ a s', a.worker? = some i → step a s = some s' →
      a = .recvQuit i
        ∨ ∃ k t, a = .deliver k i ∧ s.handoffs[k]? = some (Handoff.holding t w.JobChannel) := by
    intro a s' ha hs
    obtain ⟨w', pc, hi', -, hc⟩ := step_worker_pc hs ha
    rw [hi] at hi'
    simp only [Option.some.injEq, WorkerLoop.mk.injEq] at hi'
    obtain ⟨rfl, rfl⟩ := hi'
    exact hc rfl
  refine ⟨⟨_, recvQuit_some hi hq, getElem?_set_same _ hi, ?_⟩, hcases, ?_⟩
  · intro tr' s'' hr
    have hst := stopped_forever tr' hr (getElem?_set_same _ hi)
    exact ⟨hst, fun a ha => stopped_no_step hst ha⟩
  · intro hheld a s' ha hs
    rcases hcases a s' ha hs with e | ⟨k, t, -, hk⟩
    · exact e
    · exfalso
      apply hheld
      unfold State.held
      exact List.mem_filterMap.mpr ⟨_, mem_of_getElem? hk, rfl⟩

theorem stop_observed_at_select_witness :
    ∃ s, exec 1 (fun _ => 1) stopRace = some s
      ∧ (∃ s', step (.recvQuit 0) s = some s'
          ∧ s'.gos[0]? = some { w := { WorkerPool := 0, JobChannel := 1, quit := 2 },
                                pc := WPc.stopped }
          ∧ ∀ tr' s'', run tr' s' = some s'' →
              s''.gos[0]? = some { w := { WorkerPool := 0, JobChannel := 1, quit := 2 },
                                   pc := WPc.stopped }
                ∧ ∀ a, a.worker? = some 0 → step a s'' = none)
      ∧ (∀ a s', a.worker? = some 0 → step a s = some s' →
          a = .recvQuit 0
            ∨ ∃ k t, a = .deliver k 0 ∧ s.handoffs[k]? = some (Handoff.holding t 1))
      ∧ ((1 : Nat) ∉ s.held →
          ∀ a s', a.worker? = some 0 → step a s = some s' → a = .recvQuit 0) :=
  ⟨_, rfl, stop_observed_at_select _ 0
    { WorkerPool := 0, JobChannel := 1, quit := 2 } (by decide) (by decide)⟩

theorem runLoop_new (n : Nat) : ∀ (s : State) (a : Nat), s.heap.next ≤ a →
    a < s.heap.next + 2 * n →
    (Dispatcher.runLoop n s).heap.cap a = 0 ∧ (Dispatcher.runLoop n s).heap.buf a = [] := by
  induction n with
  | zero => intro s a h1 h2; omega
  | succ n ih =>
    intro s a h1 h2
    rw [Dispatcher.runLoop]
    by_cases hlt : a < s.heap.next + 2
    · have := runLoop_old n (Dispatcher.runBody s) a (by rw [runBody_next]; exact hlt)
      rw [this.1, this.2, runBody_cap, runBody_buf]
      by_cases e1 : a = s.heap.next + 1
      · subst e1; simp [upd_same]
      · have e2 : a = s.heap.next := by omega
        subst e2
        simp [upd_other _ _ _ _ e1, upd_same]
    · exact ih _ a (by rw [runBody_next]; omega) (by rw [runBody_next]; omega)

/-- What `Run` does, for any dispatcher with a non-negative `maxWorkers`. -/
theorem Run_spec (s : State) (hm : 0 ≤ s.d.maxWorkers) :
    ∃ new : List Worker,
      (Dispatcher.Run s).d.workers = s.d.workers ++ new
        ∧ (new.length : Int) = s.d.maxWorkers
        ∧ (∀ w ∈ new, w.WorkerPool = s.d.workerPool)
        ∧ (new.map Worker.chans).flatten.Nodup
        ∧ (∀ w ∈ new, ∀ c ∈ w.chans, s.heap.next ≤ c ∧ c < (Dispatcher.Run s).heap.next
              ∧ (Dispatcher.Run s).heap.cap c = 0 ∧ (Dispatcher.Run s).heap.buf c = [])
        ∧ (Dispatcher.Run s).gos = s.gos ++ new.map (fun w => { w := w, pc := WPc.announcing })
        ∧ (Dispatcher.Run s).dispatchers = s.dispatchers + 1
        ∧ (Dispatcher.Run s).d.workerPool = s.d.workerPool
        ∧ (Dispatcher.Run s).d.maxWorkers = s.d.maxWorkers := by
  refine ⟨freshWorkers s.d.workerPool s.heap.next s.d.maxWorkers.toNat, ?_, ?_, ?_, ?_, ?_, ?_, ?_,
    ?_, ?_⟩
  · simp only [Dispatcher.Run]; exact runLoop_workers _ s
  · rw [freshWorkers_length]; exact Int.toNat_of_nonneg hm
  · exact freshWorkers_pool _ _ _
  · rw [freshWorkers_chans]; exact List.nodup_range' _ _
  · intro w hw c hc
    have hmem : c ∈ ((freshWorkers s.d.workerPool s.heap.next s.d.maxWorkers.toNat).map
        Worker.chans).flatten :=
      List.mem_flatten.mpr ⟨_, List.mem_map.mpr ⟨w, hw, rfl⟩, hc⟩
    rw [freshWorkers_chans, List.mem_range'_1] at hmem
    have hnew := runLoop_new s.d.maxWorkers.toNat s c hmem.1 hmem.2
    simp only [Dispatcher.Run]
    rw [runLoop_next]
    exact ⟨hmem.1, hmem.2, hnew.1, hnew.2⟩
  · simp only [Dispatcher.Run]; exact runLoop_gos _ s
  · simp only [Dispatcher.Run]; rw [(runLoop_rest _ s).1]
  · simp only [Dispatcher.Run]; exact (runLoop_pool _ s).1
  · simp only [Dispatcher.Run]; exact (runLoop_pool _ s).2

/-- C7, counterexample. For `n = 1 << 45`, which is not negative,
`make(chan chan Job, n)` panics (the buffer of 8-byte elements does not fit
under `maxAlloc`), so `NewDispatcher(n)` returns no dispatcher and the pool
is never started; the same holds for `n = MaxInt64`. -/
theorem NewDispatcher_size_out_of_range :
    (0 : Int) ≤ 35184372088832
      ∧ makechanPanics chanElemSize 35184372088832 = true
      ∧ NewDispatcher 35184372088832 emptyHeap = none
      ∧ started 35184372088832 (fun _ => 0) = none
      ∧ NewDispatcher 9223372036854775807 emptyHeap = none :=
  ⟨by decide, by decide, rfl, rfl, rfl⟩

/-- C7, amended. For `0 ≤ n` with `8 * n ≤ maxAlloc - hchanSize` (the sizes
`make` accepts), `NewDispatcher(n)` returns a dispatcher whose registry is a
fresh channel of capacity `n`, empty, with `maxWorkers = n` and no tracked
worker, touches no other channel and starts no goroutine; for every other
size it panics.  `Run()` on a dispatcher with `k` tracked workers and
`maxWorkers = n` leaves `k + maxWorkers` of them, the first `k` unchanged; the
new ones share the dispatcher's registry, own channels that are fresh,
unbuffered, empty and pairwise distinct, and each has a goroutine at its
announcing send.  In particular `NewDispatcher(n)` followed by one `Run()`
leaves exactly `n` tracked workers. -/
theorem NewDispatcher_then_Run (n : Int) (hn : 0 ≤ n)
    (hmax : chanElemSize * n ≤ maxAlloc - hchanSize) :
    (∀ h : Heap, ∃ d h', NewDispatcher n h = some (d, h')
        ∧ d.workerPool = h.next ∧ h'.next = h.next + 1
        ∧ h'.cap d.workerPool = n.toNat ∧ h'.buf d.workerPool = []
        ∧ d.maxWorkers = n ∧ d.workers = []
        ∧ (∀ a, a ≠ h.next → h'.cap a = h.cap a ∧ h'.buf a = h.buf a)
        ∧ ∀ wgs, (created d h' wgs).gos = [] ∧ (created d h' wgs).dispatchers = 0)
      ∧ (∀ (m : Int) (h : Heap), (m < 0 ∨ maxAlloc - hchanSize < chanElemSize * m) →
          NewDispatcher m h = none)
      ∧ (∀ s : State, s.d.maxWorkers = n → ∃ new : List Worker,
          (Dispatcher.Run s).d.workers = s.d.workers ++ new
            ∧ ((Dispatcher.Run s).d.workers.length : Int) = s.d.workers.length + s.d.maxWorkers
            ∧ (∀ w ∈ new, w.WorkerPool = s.d.workerPool)
            ∧ (new.map Worker.chans).flatten.Nodup
            ∧ (∀ w ∈ new, ∀ c ∈ w.chans, s.heap.next ≤ c ∧ c < (Dispatcher.Run s).heap.next
                  ∧ (Dispatcher.Run s).heap.cap c = 0 ∧ (Dispatcher.Run s).heap.buf c = [])
            ∧ (Dispatcher.Run s).gos
                = s.gos ++ new.map (fun w => { w := w, pc := WPc.announcing })
            ∧ (Dispatcher.Run s).dispatchers = s.dispatchers + 1
            ∧ (Dispatcher.Run s).d.workerPool = s.d.workerPool
            ∧ (Dispatcher.Run s).d.maxWorkers = s.d.maxWorkers)
      ∧ (∀ wgs : Nat → Int, ∃ s0, started n wgs = some s0
          ∧ (s0.d.workers.length : Int) = n
          ∧ s0.gos = s0.d.workers.map (fun w => { w := w, pc := WPc.announcing })
          ∧ (∀ w ∈ s0.d.workers, w.WorkerPool = s0.d.workerPool)
          ∧ (s0.d.workers.map Worker.chans).flatten.Nodup
          ∧ (∀ w ∈ s0.d.workers, ∀ c ∈ w.chans, c ≠ s0.d.workerPool)
          ∧ s0.heap.cap s0.d.workerPool = n.toNat ∧ s0.registry = []) := by
  refine ⟨?_, ?_, ?_, ?_⟩
  · intro h
    exact ⟨_, _, NewDispatcher_eq hn hmax h, rfl, rfl, upd_same _ _ _, upd_same _ _ _, rfl, rfl,
      fun a ha => ⟨upd_other _ _ _ _ ha, upd_other _ _ _ _ ha⟩, fun _ => ⟨rfl, rfl⟩⟩
  · intro m h hm
    simp only [NewDispatcher, makechanPanics_true hm, if_true]
  · intro s hs
    obtain ⟨new, h1, h2, h3, h4, h5, h6, h7, h8, h9⟩ := Run_spec s (by rw [hs]; exact hn)
    refine ⟨new, h1, ?_, h3, h4, h5, h6, h7, h8, h9⟩
    rw [h1, List.length_append]
    push_cast
    rw [h2]
  · intro wgs
    obtain ⟨new, h1, h2, h3, h4, h5, h6, -, h8, -⟩ :=
      Run_spec (created (firstDispatcher n) (firstHeap n) wgs) hn
    have hold := runLoop_old n.toNat (created (firstDispatcher n) (firstHeap n) wgs) 0
      Nat.zero_lt_one
    simp only [created, firstDispatcher, firstHeap, List.nil_append] at h1 h2 h3 h5 h6 h8 hold
    refine ⟨_, started_eq hn hmax wgs, ?_, ?_, ?_, ?_, ?_, ?_, ?_⟩
    · simp only [created, firstDispatcher, firstHeap]
      rw [h1]; exact h2
    · simp only [created, firstDispatcher, firstHeap]
      rw [h6, h1]
    · simp only [created, firstDispatcher, firstHeap]
      rw [h1, h8]; exact h3
    · simp only [created, firstDispatcher, firstHeap]
      rw [h1]; exact h4
    · simp only [created, firstDispatcher, firstHeap]
      rw [h1, h8]
      intro w hw c hc
      have := (h5 w hw c hc).1
      omega
    · simp only [created, firstDispatcher, firstHeap]
      rw [h8]
      have := hold.1
      simp only [Dispatcher.Run]
      rw [this]; exact upd_same _ _ _
    · simp only [State.registry, created, firstDispatcher, firstHeap]
      rw [h8]
      have := hold.2
      simp only [Dispatcher.Run]
      rw [this]; exact upd_same _ _ _

theorem NewDispatcher_then_Run_witness :
    (∀ h : Heap, ∃ d h', NewDispatcher 5 h = some (d, h')
        ∧ d.workerPool = h.next ∧ h'.next = h.next + 1
        ∧ h'.cap d.workerPool = (5 : Int).toNat ∧ h'.buf d.workerPool = []
        ∧ d.maxWorkers = 5 ∧ d.workers = []
        ∧ (∀ a, a ≠ h.next → h'.cap a = h.cap a ∧ h'.buf a = h.buf a)
        ∧ ∀ wgs, (created d h' wgs).gos = [] ∧ (created d h' wgs).dispatchers = 0)
      ∧ (∀ (m : Int) (h : Heap), (m < 0 ∨ maxAlloc - hchanSize < chanElemSize * m) →
          NewDispatcher m h = none)
      ∧ (∀ s : State, s.d.maxWorkers = 5 → ∃ new : List Worker,
          (Dispatcher.Run s).d.workers = s.d.workers ++ new
            ∧ ((Dispatcher.Run s).d.workers.length : Int) = s.d.workers.length + s.d.maxWorkers
            ∧ (∀ w ∈ new, w.WorkerPool = s.d.workerPool)
            ∧ (new.map Worker.chans).flatten.Nodup
            ∧ (∀ w ∈ new, ∀ c ∈ w.chans, s.heap.next ≤ c ∧ c < (Dispatcher.Run s).heap.next
                  ∧ (Dispatcher.Run s).heap.cap c = 0 ∧ (Dispatcher.Run s).heap.buf c = [])
            ∧ (Dispatcher.Run s).gos
                = s.gos ++ new.map (fun w => { w := w, pc := WPc.announcing })
            ∧ (Dispatcher.Run s).dispatchers = s.dispatchers + 1
            ∧ (Dispatcher.Run s).d.workerPool = s.d.workerPool
            ∧ (Dispatcher.Run s).d.maxWorkers = s.d.maxWorkers)
      ∧ (∀ wgs : Nat → Int, ∃ s0, started 5 wgs = some s0
          ∧ (s0.d.workers.length : Int) = 5
          ∧ s0.gos = s0.d.workers.map (fun w => { w := w, pc := WPc.announcing })
          ∧ (∀ w ∈ s0.d.workers, w.WorkerPool = s0.d.workerPool)
          ∧ (s0.d.workers.map Worker.chans).flatten.Nodup
          ∧ (∀ w ∈ s0.d.workers, ∀ c ∈ w.chans, c ≠ s0.d.workerPool)
          ∧ s0.heap.cap s0.d.workerPool = (5 : Int).toNat ∧ s0.registry = []) :=
  NewDispatcher_then_Run 5 (by decide) (by decide)

theorem deliver_some {k i : Nat} {w : Worker} {t : Ticket} {s : State}
    (hk : s.handoffs[k]? = some (Handoff.holding t w.JobChannel))
    (hi : s.gos[i]? = some { w := w, pc := WPc.awaiting }) :
    deliver k i s = some { s with handoffs := s.handoffs.eraseIdx k,
                                  gos := s.gos.set i { w := w, pc := WPc.executing t } } := by
  simp only [deliver, hk, hi, if_true]

/-- With the invariants, the announcing send of a worker is enabled and puts
its handle at the end of the registry. -/
theorem announce_enabled {W : Nat} {s : State} (hs : Static W s) (hb : Balanced W s)
    {i : Nat} {w : Worker} (hi : s.gos[i]? = some { w := w, pc := WPc.announcing }) :
    ∃ s', step (.announce i) s = some s'
      ∧ s'.gos[i]? = some { w := w, pc := WPc.awaiting }
      ∧ s'.handoffs = s.handoffs
      ∧ s'.registry = s.registry ++ [w.JobChannel] := by
  unfold Balanced at hb
  have hw : w.WorkerPool = s.d.workerPool :=
    hs.pool w (List.mem_map.mpr ⟨_, mem_of_getElem? hi, rfl⟩)
  have hpos : 0 < s.announcers := by
    unfold State.announcers
    exact List.countP_pos_iff.mpr ⟨_, mem_of_getElem? hi, by simp⟩
  have hlt : s.registry.length < W := by omega
  have hroom : (s.heap.buf w.WorkerPool).length < s.heap.cap w.WorkerPool := by
    rw [hw, hs.cap]; exact hlt
  refine ⟨_, announce_some hi hroom, getElem?_set_same _ hi, rfl, ?_⟩
  simp only [State.registry, hw, upd_same]

/-- A waiting handoff takes the handle at the head of the registry. -/
theorem take_enabled {k : Nat} {t : Ticket} {ch : Nat} {rest : List Nat} {s : State}
    (hk : s.handoffs[k]? = some (Handoff.waiting t)) (hr : s.registry = ch :: rest) :
    ∃ s', step (.take k) s = some s'
      ∧ s'.handoffs[k]? = some (Handoff.holding t ch) ∧ s'.gos = s.gos := by
  have hr' : s.heap.buf s.d.workerPool = ch :: rest := hr
  refine ⟨{ s with heap := { s.heap with buf := upd s.heap.buf s.d.workerPool rest },
                   handoffs := s.handoffs.set k (Handoff.holding t ch) },
    ?_, getElem?_set_same _ hk, rfl⟩
  simp only [step, take, hk, hr']

/-- A worker about to announce, with the registry empty and a handoff waiting,
is handed the job of that handoff in three steps. -/
theorem accepts_next {W : Nat} {s : State} (hs : Static W s) (hb : Balanced W s)
    {i : Nat} {w : Worker} (hi : s.gos[i]? = some { w := w, pc := WPc.announcing })
    {k : Nat} {t : Ticket} (hk : s.handoffs[k]? = some (Handoff.waiting t))
    (hr : s.registry = []) :
    ∃ s', run [.announce i, .take k, .deliver k i] s = some s'
      ∧ s'.gos[i]? = some { w := w, pc := WPc.executing t } := by
  obtain ⟨s3, h3, hg3, hh3, hr3⟩ := announce_enabled hs hb hi
  have hk3 : s3.handoffs[k]? = some (Handoff.waiting t) := by rw [hh3]; exact hk
  have hr3' : s3.registry = [w.JobChannel] := by rw [hr3, hr]; rfl
  obtain ⟨s4, h4, hk4, hg4⟩ := take_enabled hk3 hr3'
  have hi4 : s4.gos[i]? = some { w := w, pc := WPc.awaiting } := by rw [hg4]; exact hg3
  have h5 : step (.deliver k i) s4
      = some { s4 with handoffs := s4.handoffs.eraseIdx k,
                       gos := s4.gos.set i { w := w, pc := WPc.executing t } } :=
    deliver_some hk4 hi4
  have hg5 : ({ s4 with handoffs := s4.handoffs.eraseIdx k,
                        gos := s4.gos.set i { w := w, pc := WPc.executing t } } : State).gos[i]?
      = some { w := w, pc := WPc.executing t } := getElem?_set_same _ hi4
  refine ⟨_, ?_, hg5⟩
  simp only [run, h3, Option.some_bind, h4, h5, Option.bind_some]

/-- The wait group of a job being executed has a positive counter when the
counter was set to `N`, all submitted jobs carry that wait group and at most
`N` jobs were submitted: with the counter set as `main` sets it, `wg.Done()`
never panics. -/
theorem counter_pos_of_executing {W N : Nat} {wgs : Nat → Int} {s : State}
    (hinv : Inv W wgs s) {i : Nat} {w : Worker} {t : Ticket}
    (hi : s.gos[i]? = some { w := w, pc := WPc.executing t })
    (hN : wgs t.2.wg = N) (hall : ∀ t' ∈ s.submitted, t'.2.wg = t.2.wg)
    (hle : s.submitted.length ≤ N) : 0 < s.wgs t.2.wg := by
  obtain ⟨-, -, -, -, hj, hg⟩ := hinv
  have hl := List.Perm.length_eq hj
  have hcount : s.signals.count t.2.wg = s.signals.length := by
    rw [List.count_eq_length]
    intro a ha
    rw [hg.fired] at ha
    obtain ⟨t', ht', rfl⟩ := List.mem_map.mp ha
    have : t' ∈ s.located := by
      simp only [State.located, List.mem_append]
      exact Or.inr ht'
    exact (hall t' ((List.Perm.mem_iff hj).mp this)).symm
  have hsl : s.signals.length = s.completed.length := by rw [hg.fired]; simp
  have hmem : t ∈ s.executing :=
    List.mem_filterMap.mpr ⟨_, mem_of_getElem? hi, rfl⟩
  have hex : 0 < s.executing.length := List.length_pos_of_mem hmem
  simp only [State.located, List.length_append] at hl
  rw [hg.counter, hN, hcount]
  omega

/-- C2, counterexample. One worker, one job whose wait group was never added
to (counter 0).  The worker receives the job and runs the body of `read`; the
deferred `wg.Done()` then panics: `read` does not return, the process ends,
and the worker is never back at its announcing send. -/
theorem Done_panics_on_zero_counter :
    ∃ s s1, exec 1 (fun _ => 0) oneJob = some s
      ∧ s.gos[0]? = some { w := { WorkerPool := 0, JobChannel := 1, quit := 2 },
                           pc := WPc.executing (0, work) }
      ∧ step (.runRead 0 (.ok "Hello, world")) s = some s1
      ∧ s1.gos[0]? = some { w := { WorkerPool := 0, JobChannel := 1, quit := 2 },
                            pc := WPc.finishing (0, work) }
      ∧ s1.wgs work.wg = 0
      ∧ read (.ok "Hello, world") work.wg (s.out, s.wgs, s.signals) = none
      ∧ panics (.done 0) s1 = true
      ∧ step (.done 0) s1 = none
      ∧ run [.runRead 0 (.ok "Hello, world"), .done 0] s = none :=
  ⟨_, _, rfl, by decide, rfl, by decide, by decide, rfl, by decide, rfl, rfl⟩

/-- C2, amended. In a reachable state where a worker has received a job whose
wait-group counter is positive, whatever `os.ReadFile` returns (an error,
other content, the expected content), the worker runs the body of `read` and
then the deferred `wg.Done()`, which does not panic: `read` returns, exactly
one completion signal is added, on the job's wait group, whose counter drops by one; the worker is
back at its announcing send, which is enabled, and when the registry is
empty and a handoff waits the worker is handed that next job and executes
it.  The outcome of the read only decides what is printed: nothing on
success, one line on a failure. -/
theorem read_signals_once (W : Nat) (wgs : Nat → Int) (tr : List Action) (s : State)
    (h : exec W wgs tr = some s) (i : Nat) (w : Worker) (t : Ticket)
    (hi : s.gos[i]? = some { w := w, pc := WPc.executing t })
    (hpos : 0 < s.wgs t.2.wg) (r : Except String String) :
    ∃ s2, run [.runRead i r, .done i] s = some s2
      ∧ (∀ s1, step (.runRead i r) s = some s1 → panics (.done i) s1 = false)
      ∧ s2 = { s with out := s.out ++ readBody r,
                      wgs := upd s.wgs t.2.wg (s.wgs t.2.wg - 1),
                      signals := s.signals ++ [t.2.wg],
                      completed := s.completed ++ [t],
                      gos := s.gos.set i { w := w, pc := WPc.announcing } }
      ∧ read r t.2.wg (s.out, s.wgs, s.signals) = some (s2.out, s2.wgs, s2.signals)
      ∧ s2.wgs t.2.wg = s.wgs t.2.wg - 1
      ∧ s2.gos[i]? = some { w := w, pc := WPc.announcing }
      ∧ (∃ s3, step (.announce i) s2 = some s3
          ∧ s3.gos[i]? = some { w := w, pc := WPc.awaiting })
      ∧ (∀ k t', s2.handoffs[k]? = some (Handoff.waiting t') → s2.registry = [] →
          ∃ s5, run [.announce i, .take k, .deliver k i] s2 = some s5
            ∧ s5.gos[i]? = some { w := w, pc := WPc.executing t' })
      ∧ (r = .ok "Hello, world" → readBody r = [])
      ∧ (r ≠ .ok "Hello, world" → (readBody r).length = 1) := by
  have h1 := runRead_some hi r
  have hi1 : ({ s with out := s.out ++ readBody r,
                       gos := s.gos.set i { w := w, pc := WPc.finishing t } } : State).gos[i]?
      = some { w := w, pc := WPc.finishing t } := getElem?_set_same _ hi
  have h2 := done_some hi1 hpos
  have hrun : run [.runRead i r, .done i] s = some
      { s with out := s.out ++ readBody r,
               wgs := upd s.wgs t.2.wg (s.wgs t.2.wg - 1),
               signals := s.signals ++ [t.2.wg],
               completed := s.completed ++ [t],
               gos := s.gos.set i { w := w, pc := WPc.announcing } } := by
    simp [run, step, h1, h2]
  have hstep1 : step (.runRead i r) s = some _ := h1
  have hstep2 : step (.done i) _ = some _ := h2
  have hinv : Inv W wgs _ := Inv_step hstep2 (Inv_step hstep1 (Inv_exec h))
  have hi2 : ({ s with out := s.out ++ readBody r,
                       wgs := upd s.wgs t.2.wg (s.wgs t.2.wg - 1),
                       signals := s.signals ++ [t.2.wg],
                       completed := s.completed ++ [t],
                       gos := s.gos.set i { w := w, pc := WPc.announcing } } : State).gos[i]?
      = some { w := w, pc := WPc.announcing } := getElem?_set_same _ hi
  simp only [List.set_set] at hinv
  obtain ⟨s3, hs3, hg3, -, -⟩ := announce_enabled hinv.1 hinv.2.1 hi2
  refine ⟨_, hrun, ?_, rfl, ?_, by simp [upd_same], hi2, ⟨s3, hs3, hg3⟩, ?_, ?_, ?_⟩
  · intro s1 hs1
    rw [hstep1] at hs1
    simp only [Option.some.injEq] at hs1
    subst hs1
    simp only [panics, hi1, wgDone_some hpos, Option.isNone_some]
  · simp only [read, wgDone_some hpos, Option.map_some']
  · intro k t' hk hr
    exact accepts_next hinv.1 hinv.2.1 hi2 hk hr
  · intro e; subst e; simp [readBody]
  · intro hne
    cases r with
    | error e => simp [readBody]
    | ok data =>
      have : data ≠ "Hello, world" := fun e => hne (by rw [e])
      simp [readBody, this]

theorem read_signals_once_witness :
    ∃ s, exec 1 (fun _ => 2) secondWaits = some s
      ∧ s.handoffs[0]? = some (Handoff.waiting (1, work)) ∧ s.registry = []
      ∧ ∃ s2, run [.runRead 0 (.error "no such file"), .done 0] s = some s2
        ∧ (∀ s1, step (.runRead 0 (.error "no such file")) s = some s1 →
            panics (.done 0) s1 = false)
        ∧ s2 = { s with out := s.out ++ readBody (.error "no such file"),
                        wgs := upd s.wgs (0, work).2.wg (s.wgs (0, work).2.wg - 1),
                        signals := s.signals ++ [(0, work).2.wg],
                        completed := s.completed ++ [(0, work)],
                        gos := s.gos.set 0 { w := { WorkerPool := 0, JobChannel := 1, quit := 2 },
                                             pc := WPc.announcing } }
        ∧ read (.error "no such file") (0, work).2.wg (s.out, s.wgs, s.signals)
            = some (s2.out, s2.wgs, s2.signals)
        ∧ s2.wgs (0, work).2.wg = s.wgs (0, work).2.wg - 1
        ∧ s2.gos[0]? = some { w := { WorkerPool := 0, JobChannel := 1, quit := 2 },
                              pc := WPc.announcing }
        ∧ (∃ s3, step (.announce 0) s2 = some s3
            ∧ s3.gos[0]? = some { w := { WorkerPool := 0, JobChannel := 1, quit := 2 },
                                  pc := WPc.awaiting })
        ∧ (∀ k t', s2.handoffs[k]? = some (Handoff.waiting t') → s2.registry = [] →
            ∃ s5, run [.announce 0, .take k, .deliver k 0] s2 = some s5
              ∧ s5.gos[0]? = some { w := { WorkerPool := 0, JobChannel := 1, quit := 2 },
                                    pc := WPc.executing t' })
        ∧ ((.error "no such file" : Except String String) = .ok "Hello, world" →
            readBody (.error "no such file") = [])
        ∧ ((.error "no such file" : Except String String) ≠ .ok "Hello, world" →
            (readBody (.error "no such file")).length = 1) :=
  ⟨_, rfl, by decide, by decide, read_signals_once 1 (fun _ => 2) secondWaits _ rfl 0
    { WorkerPool := 0, JobChannel := 1, quit := 2 } (0, work) (by decide) (by decide)
    (.error "no such file")⟩

/-- The schedule `failThenNext` runs to the end: the first read fails and
prints one line, both jobs are signalled, and the worker that had the failure
executes the second job. -/
theorem failThenNext_completes :
    ∃ s, exec 1 (fun _ => 2) failThenNext = some s
      ∧ s.completed = [(0, work), (1, work)] ∧ s.wgs 0 = 0
      ∧ s.out = ["Error reading file: no such file\n"]
      ∧ s.waiting = [] ∧ s.handoffs = []
      ∧ s.gos[0]? = some { w := { WorkerPool := 0, JobChannel := 1, quit := 2 },
                           pc := WPc.announcing } :=
  ⟨_, rfl, by decide, by decide, by decide, by decide, by decide, by decide⟩

/-- C6. `Dispatcher.Stop()` starts one stop goroutine for each tracked worker,
in order, on that worker's quit channel, and changes nothing else: tracked
workers, registry, `JobQueue` and its blocked senders, handoffs and worker
goroutines are as before.  In a reachable state the quit channels are
pairwise distinct, so every tracked worker gets exactly one more pending
signal and no other channel gets any. -/
theorem Stop_signals_each_worker_once (W : Nat) (wgs : Nat → Int) (tr : List Action)
    (s : State) (h : exec W wgs tr = some s) :
    step .stop s = some (Dispatcher.Stop s)
      ∧ Dispatcher.Stop s = { s with stops := s.stops ++ s.d.workers.map (fun w => w.quit) }
      ∧ (Dispatcher.Stop s).d.workers = s.d.workers
      ∧ (Dispatcher.Stop s).registry = s.registry
      ∧ (Dispatcher.Stop s).JobQueue = s.JobQueue
      ∧ (Dispatcher.Stop s).sendq = s.sendq
      ∧ (Dispatcher.Stop s).handoffs = s.handoffs
      ∧ (Dispatcher.Stop s).gos = s.gos
      ∧ (∀ w ∈ s.d.workers,
          (Dispatcher.Stop s).stops.count w.quit = s.stops.count w.quit + 1)
      ∧ (∀ q, (∀ w ∈ s.d.workers, w.quit ≠ q) →
          (Dispatcher.Stop s).stops.count q = s.stops.count q) := by
  have hs := (Inv_exec h).1
  have hq : (s.d.workers.map (fun w => w.quit)).Nodup := by
    rw [← hs.tracked]; exact hs.quits
  have he := Stop_eq s
  refine ⟨rfl, he, ?_, ?_, ?_, ?_, ?_, ?_, ?_, ?_⟩
  · rw [he]
  · rw [he]; rfl
  · rw [he]
  · rw [he]
  · rw [he]
  · rw [he]
  · intro w hw
    rw [he]
    simp only [List.count_append]
    rw [List.count_eq_one_of_mem hq (List.mem_map.mpr ⟨w, hw, rfl⟩)]
  · intro q hq'
    rw [he]
    simp only [List.count_append]
    have hz : (s.d.workers.map (fun w => w.quit)).count q = 0 := by
      apply List.count_eq_zero_of_not_mem
      intro hm
      obtain ⟨w, hw, e⟩ := List.mem_map.mp hm
      exact hq' w hw e
    rw [hz]; rfl

theorem Stop_signals_each_worker_once_witness :
    ∃ s, exec 2 (fun _ => 2) twoJobs = some s
      ∧ step .stop s = some (Dispatcher.Stop s)
      ∧ Dispatcher.Stop s = { s with stops := s.stops ++ s.d.workers.map (fun w => w.quit) }
      ∧ (Dispatcher.Stop s).d.workers = s.d.workers
      ∧ (Dispatcher.Stop s).registry = s.registry
      ∧ (Dispatcher.Stop s).JobQueue = s.JobQueue
      ∧ (Dispatcher.Stop s).sendq = s.sendq
      ∧ (Dispatcher.Stop s).handoffs = s.handoffs
      ∧ (Dispatcher.Stop s).gos = s.gos
      ∧ (∀ w ∈ s.d.workers,
          (Dispatcher.Stop s).stops.count w.quit = s.stops.count w.quit + 1)
      ∧ (∀ q, (∀ w ∈ s.d.workers, w.quit ≠ q) →
          (Dispatcher.Stop s).stops.count q = s.stops.count q) :=
  ⟨_, rfl, Stop_signals_each_worker_once 2 (fun _ => 2) twoJobs _ rfl⟩

/-- C9. `JobQueue` is made with capacity 0: a send on it is never buffered.
With the pool of `main` (5 workers) started, the first `JobQueue <- work`
leaves the buffer empty and the sender among the blocked senders, nothing
being pulled yet; in every state a send ends in the queue of blocked senders,
where it stays until `dispatch` receives it. -/
theorem JobQueue_unbuffered :
    JobQueueCap = 0
      ∧ (∃ s, exec 5 (fun _ => 10000) [.submit work] = some s
          ∧ s.JobQueue = [] ∧ s.sendq = [(0, work)] ∧ s.pulled = [])
      ∧ ∀ (s : State) (j : Job), ∃ s', step (.submit j) s = some s'
          ∧ s'.JobQueue = s.JobQueue ∧ s'.sendq = s.sendq ++ [(s.submitted.length, j)] :=
  ⟨rfl, ⟨_, rfl, by decide, by decide, by decide⟩,
    fun s j => ⟨_, submit_eq j s, rfl, rfl⟩⟩

/-- The schedule `twoJobs` runs to the end: both jobs complete, the wait group
reaches 0, the failed read printed one line. -/
theorem twoJobs_completes :
    ∃ s, exec 2 (fun _ => 2) twoJobs = some s
      ∧ s.completed = [(1, work), (0, work)] ∧ s.wgs 0 = 0
      ∧ s.out = ["Error reading file: no such file\n"]
      ∧ s.waiting = [] ∧ s.handoffs = [] :=
  ⟨_, rfl, by decide, by decide, by decide, by decide, by decide⟩

end WorkerQueue
